import Mathlib

/-!
Verification of the provisioning / bootstrap core of the cf-saas-starter
repository (`lib/db/setup.ts`, the schema-bootstrap module and the seed
script).  JavaScript strings are modelled as `List Char`; the functions
below are shallow embeddings of the corresponding TypeScript functions,
keeping the source names where Lean allows it.
-/

/-- Chars of a string literal (JS strings are modelled as `List Char`). -/
def chars (s : String) : List Char := s.data

/-- The whitespace class used by both JS `String.prototype.trim` and the
regex class `\s` (the two coincide in JavaScript).  Restricted to the
code points that can realistically appear in CLI output. -/
def isJsSpace (c : Char) : Bool :=
  c = ' ' || c = '\t' || c = '\n' || c = '\r' || c = '\x0b' || c = '\x0c' ||
  c.toNat = 0xa0 || c.toNat = 0xfeff

/-- JS `String.prototype.trim`. -/
def jsTrim (l : List Char) : List Char :=
  ((l.dropWhile isJsSpace).reverse.dropWhile isJsSpace).reverse

/-- Split on the regex `/\r?\n/` (JS `split`): each `\n`, optionally
preceded by a `\r`, ends a line; a lone `\r` stays in the line. -/
def splitLines (l : List Char) : List (List Char) :=
  go l []
where
  go : List Char → List Char → List (List Char)
    | [], acc => [acc.reverse]
    | '\r' :: '\n' :: rest, acc => acc.reverse :: go rest []
    | '\n' :: rest, acc => acc.reverse :: go rest []
    | c :: rest, acc => go rest (c :: acc)

/-- ASCII lower-casing, enough for the case-insensitive (`/i`) regexes of
the source, which only involve ASCII letters. -/
def asciiLower (c : Char) : Char :=
  if 'A' ≤ c ∧ c ≤ 'Z' then Char.ofNat (c.toNat + 32) else c

/-- Substring test (JS `String.prototype.includes` / regex literal search):
true iff `pat` occurs contiguously somewhere in `l`. -/
def hasSub (pat : List Char) : List Char → Bool
  | [] => pat.isEmpty
  | c :: rest => pat.isPrefixOf (c :: rest) || hasSub pat rest

/-- Case-insensitive substring test, modelling `/literal/i.test(s)`. -/
def containsCI (pat : List Char) (l : List Char) : Bool :=
  hasSub (pat.map asciiLower) (l.map asciiLower)

/-- Case-insensitive literal match at the front of `l` (the way a literal
inside an `/.../i` regex consumes input); returns the rest on success. -/
def dropLitCI (pat : List Char) (l : List Char) : Option (List Char) :=
  match pat, l with
  | [], rest => some rest
  | _ :: _, [] => none
  | p :: ps, c :: cs => if asciiLower c = asciiLower p then dropLitCI ps cs else none

/-- Case-sensitive literal match at the front of `l`. -/
def dropLit (pat : List Char) (l : List Char) : Option (List Char) :=
  match pat, l with
  | [], rest => some rest
  | _ :: _, [] => none
  | p :: ps, c :: cs => if c = p then dropLit ps cs else none

/-- The character class `[0-9a-f]` under the `/i` flag. -/
def isHexDigitCI (c : Char) : Bool :=
  ('0' ≤ c ∧ c ≤ '9') || ('a' ≤ c ∧ c ≤ 'f') || ('A' ≤ c ∧ c ≤ 'F')

/-- `/^[a-f0-9]{32}$/i.test s` — the account-id validation of `setup.ts`. -/
def isHex32 (l : List Char) : Bool :=
  l.length = 32 && l.all isHexDigitCI

/-- Lowercase 32-hex test (what the spec asserts about account ids). -/
def isLowerHex32 (l : List Char) : Bool :=
  l.length = 32 && l.all (fun c => ('0' ≤ c ∧ c ≤ '9') || ('a' ≤ c ∧ c ≤ 'f'))

/-- Character class `[0-9;?]` of the ANSI regex in `stripAnsi`. -/
def isAnsiMid1 (c : Char) : Bool := ('0' ≤ c ∧ c ≤ '9') || c = ';' || c = '?'

/-- Character class `[ -\/]` (0x20–0x2F) of the ANSI regex. -/
def isAnsiMid2 (c : Char) : Bool := ' ' ≤ c ∧ c ≤ '/'

/-- Character class `[@-~]` (0x40–0x7E) of the ANSI regex. -/
def isAnsiFin (c : Char) : Bool := '@' ≤ c ∧ c ≤ '~'

/-- If `l` begins with a full match of `/\u001b\[[0-9;?]*[ -\/]*[@-~]/`,
return the input after the match.  The three character classes are
pairwise disjoint, so the greedy match is deterministic. -/
def ansiSuffixAfter (l : List Char) : Option (List Char) :=
  match l with
  | '\x1b' :: '[' :: rest =>
    match (rest.dropWhile isAnsiMid1).dropWhile isAnsiMid2 with
    | d :: r => if isAnsiFin d then some r else none
    | [] => none
  | _ => none

theorem ansiSuffixAfter_length {l r : List Char} (h : ansiSuffixAfter l = some r) :
    r.length < l.length := by
  unfold ansiSuffixAfter at h
  split at h
  next rest =>
    have hle : ((rest.dropWhile isAnsiMid1).dropWhile isAnsiMid2).length ≤ rest.length :=
      le_trans (List.Sublist.length_le (List.dropWhile_sublist _))
        (List.Sublist.length_le (List.dropWhile_sublist _))
    split at h
    next d r2 heq =>
      split at h
      · cases h
        rw [heq] at hle
        simp only [List.length_cons, List.length] at hle ⊢
        omega
      · cases h
    next heq => cases h
  next => cases h

/-- One pass of the global ANSI replacement, fuelled so that it reduces
definitionally.  By `ansiSuffixAfter_length` every step shortens the
input by at least one character, so fuel = input length (as supplied by
`stripAnsi`) never runs out and the fallback arm is unreachable. -/
def stripAnsiGo : Nat → List Char → List Char
  | _, [] => []
  | 0, l => l
  | fuel + 1, c :: rest =>
    match ansiSuffixAfter (c :: rest) with
    | some r => stripAnsiGo fuel r
    | none => c :: stripAnsiGo fuel rest

/-- `stripAnsi` of `setup.ts`: global replacement of the ANSI regex
`/\u001b\[[0-9;?]*[ -\/]*[@-~]/g` by the empty string.  On a failed match
attempt the scan restarts one character later, exactly like the JS regex
engine. -/
def stripAnsi (l : List Char) : List Char := stripAnsiGo l.length l

/-- The value domain of `JSON.parse` as used by `setup.ts`.  Numbers keep
their literal text: the scripts never do arithmetic on parsed numbers, only
truthiness tests and (mis)use as strings, so the lexeme is the faithful
level of detail (no floating point is modelled). -/
inductive Json where
  | null
  | bool (b : Bool)
  | num (lexeme : List Char)
  | str (s : List Char)
  | arr (elems : List Json)
  | obj (fields : List (List Char × Json))

def Json.isNull : Json → Bool
  | .null => true
  | _ => false

/-- JSON insignificant whitespace. -/
def isJsonWs (c : Char) : Bool := c = ' ' || c = '\t' || c = '\n' || c = '\r'

def isDigitC (c : Char) : Bool := '0' ≤ c ∧ c ≤ '9'

def hexVal (c : Char) : Option Nat :=
  if '0' ≤ c ∧ c ≤ '9' then some (c.toNat - 48)
  else if 'a' ≤ c ∧ c ≤ 'f' then some (c.toNat - 87)
  else if 'A' ≤ c ∧ c ≤ 'F' then some (c.toNat - 55)
  else none

/-- JSON string body (opening quote already consumed): returns the decoded
content and the input after the closing quote.  `\uXXXX` decodes through
`Char.ofNat` (lone surrogates, which cannot arise in the fixtures of this
development, fall back to `Char.ofNat`'s default). -/
def parseJStr : Nat → List Char → Option (List Char × List Char)
  | 0, _ => none
  | _ + 1, [] => none
  | fuel + 1, c :: rest =>
    if c = '"' then some ([], rest)
    else if c = '\\' then
      match rest with
      | [] => none
      | e :: rest2 =>
        if e = '"' ∨ e = '\\' ∨ e = '/' then
          (parseJStr fuel rest2).map (fun p => (e :: p.1, p.2))
        else if e = 'b' then (parseJStr fuel rest2).map (fun p => ('\x08' :: p.1, p.2))
        else if e = 'f' then (parseJStr fuel rest2).map (fun p => ('\x0c' :: p.1, p.2))
        else if e = 'n' then (parseJStr fuel rest2).map (fun p => ('\n' :: p.1, p.2))
        else if e = 'r' then (parseJStr fuel rest2).map (fun p => ('\r' :: p.1, p.2))
        else if e = 't' then (parseJStr fuel rest2).map (fun p => ('\t' :: p.1, p.2))
        else if e = 'u' then
          match rest2 with
          | h1 :: h2 :: h3 :: h4 :: rest3 =>
            match hexVal h1, hexVal h2, hexVal h3, hexVal h4 with
            | some a, some b, some c2, some d =>
              (parseJStr fuel rest3).map
                (fun p => (Char.ofNat (a * 4096 + b * 256 + c2 * 16 + d) :: p.1, p.2))
            | _, _, _, _ => none
          | _ => none
        else none
    else if 0x20 ≤ c.toNat then (parseJStr fuel rest).map (fun p => (c :: p.1, p.2))
    else none

/-- JSON number literal: `-? (0 | [1-9][0-9]*) frac? exp?`; returns the
lexeme and the rest of the input. -/
def parseJNum (l : List Char) : Option (List Char × List Char) := do
  let (neg, l1) := match l with
    | '-' :: t => (['-'], t)
    | _ => (([] : List Char), l)
  match l1 with
  | [] => none
  | d :: rest0 =>
    if ¬ isDigitC d then none
    else do
      let (ip, r1) :=
        if d = '0' then (['0'], rest0)
        else (l1.takeWhile isDigitC, l1.dropWhile isDigitC)
      let (fp, r2) ← (match r1 with
        | '.' :: t =>
          let ds := t.takeWhile isDigitC
          if ds.isEmpty then none else some ('.' :: ds, t.dropWhile isDigitC)
        | _ => some (([] : List Char), r1))
      let (ep, r3) ← (match r2 with
        | e :: t =>
          if e = 'e' ∨ e = 'E' then
            let (sg, t1) := match t with
              | s :: t2 => if s = '+' ∨ s = '-' then ([s], t2) else (([] : List Char), t)
              | [] => (([] : List Char), t)
            let ds := t1.takeWhile isDigitC
            if ds.isEmpty then none else some (e :: (sg ++ ds), t1.dropWhile isDigitC)
          else some (([] : List Char), r2)
        | [] => some (([] : List Char), r2))
      some (neg ++ ip ++ fp ++ ep, r3)

mutual

/-- Recursive-descent JSON value parser (the model of `JSON.parse`),
fuelled; `jsonParse` supplies ample fuel. -/
def parseVal : Nat → List Char → Option (Json × List Char)
  | 0, _ => none
  | fuel + 1, l =>
    match l.dropWhile isJsonWs with
    | [] => none
    | c :: rest =>
      if c = '{' then parseObjRest fuel rest
      else if c = '[' then parseArrRest fuel rest
      else if c = '"' then (parseJStr fuel rest).map (fun p => (Json.str p.1, p.2))
      else if c = 't' then (dropLit (chars "rue") rest).map (fun r => (Json.bool true, r))
      else if c = 'f' then (dropLit (chars "alse") rest).map (fun r => (Json.bool false, r))
      else if c = 'n' then (dropLit (chars "ull") rest).map (fun r => (Json.null, r))
      else (parseJNum (c :: rest)).map (fun p => (Json.num p.1, p.2))

def parseArrRest : Nat → List Char → Option (Json × List Char)
  | 0, _ => none
  | fuel + 1, l =>
    match l.dropWhile isJsonWs with
    | ']' :: rest => some (Json.arr [], rest)
    | _ => do
      let (v, r1) ← parseVal fuel l
      parseArrMore fuel [v] r1

def parseArrMore : Nat → List Json → List Char → Option (Json × List Char)
  | 0, _, _ => none
  | fuel + 1, acc, l =>
    match l.dropWhile isJsonWs with
    | ',' :: rest => do
      let (v, r1) ← parseVal fuel rest
      parseArrMore fuel (acc ++ [v]) r1
    | ']' :: rest => some (Json.arr acc, rest)
    | _ => none

def parseObjRest : Nat → List Char → Option (Json × List Char)
  | 0, _ => none
  | fuel + 1, l =>
    match l.dropWhile isJsonWs with
    | '}' :: rest => some (Json.obj [], rest)
    | _ => parseObjMore fuel [] l

def parseObjMore : Nat → List (List Char × Json) → List Char → Option (Json × List Char)
  | 0, _, _ => none
  | fuel + 1, acc, l =>
    match l.dropWhile isJsonWs with
    | '"' :: rest => do
      let (k, r1) ← parseJStr fuel rest
      match r1.dropWhile isJsonWs with
      | ':' :: r2 => do
        let (v, r3) ← parseVal fuel r2
        match r3.dropWhile isJsonWs with
        | ',' :: r4 => parseObjMore fuel (acc ++ [(k, v)]) r4
        | '}' :: r4 => some (Json.obj (acc ++ [(k, v)]), r4)
        | _ => none
      | _ => none
    | _ => none

end

/-- Model of `JSON.parse`: parse one value, allow trailing whitespace,
reject anything else left over. -/
def jsonParse (l : List Char) : Option Json := do
  let (v, rest) ← parseVal (4 * l.length + 8) l
  if (rest.dropWhile isJsonWs).isEmpty then some v else none

/-- Duplicate JSON keys: `JSON.parse` keeps the last occurrence, so a
property read returns the last binding. -/
def lookupLast (fields : List (List Char × Json)) (key : List Char) : Option Json :=
  fields.foldl (fun acc f => if f.1 = key then some f.2 else acc) none

/-- JS property access `j.key` on a parsed JSON value: `none` models
`undefined` (non-objects have none of the properties the scripts read). -/
def jsGet (j : Json) (key : String) : Option Json :=
  match j with
  | .obj fields => lookupLast fields (chars key)
  | _ => none

/-- Digits of a JSON number lexeme before any exponent are all `0` iff the
numeric value is zero (the only falsy number reachable from JSON text). -/
def jsonNumIsZero (lex : List Char) : Bool :=
  ((lex.takeWhile (fun c => c ≠ 'e' ∧ c ≠ 'E')).filter isDigitC).all (fun c => c = '0')

/-- JS truthiness of a JSON value. -/
def truthy : Json → Bool
  | .null => false
  | .bool b => b
  | .num lex => ¬ jsonNumIsZero lex
  | .str s => ¬ s.isEmpty
  | .arr _ => true
  | .obj _ => true

/-- JS truthiness of a possibly-`undefined` value. -/
def truthyOpt : Option Json → Bool
  | none => false
  | some j => truthy j

/-- JS nullish coalescing `a ?? b` on JSON values (`none` = `undefined`). -/
def nsCoalesce (a b : Option Json) : Option Json :=
  match a with
  | none => b
  | some .null => b
  | some v => some v

/-- JS `String.prototype.indexOf` restricted to a single character
(`-1` modelled as `none`). -/
def idxOfFirst (c : Char) : List Char → Option Nat
  | [] => none
  | d :: rest => if d = c then some 0 else (idxOfFirst c rest).map (· + 1)

/-- JS `String.prototype.lastIndexOf` for a single character. -/
def idxOfLast (c : Char) (l : List Char) : Option Nat :=
  (idxOfFirst c l.reverse).map (fun i => l.length - 1 - i)

/-- `parseJsonFromOutput` of `setup.ts`: ANSI-strip, slice from the first
`\x7b` to the last `\x7d`, `JSON.parse` the slice, `none` on any failure.
Total by construction — the JS original never throws (the parse is inside
`try`). -/
def parseJsonFromOutput (raw : List Char) : Option Json :=
  if raw.isEmpty then none
  else
    let clean := stripAnsi raw
    match idxOfFirst '{' clean, idxOfLast '}' clean with
    | some firstBrace, some lastBrace =>
      if lastBrace ≤ firstBrace then none
      else jsonParse ((clean.drop firstBrace).take (lastBrace + 1 - firstBrace))
    | _, _ => none

/-- `AccountInfo` of `setup.ts`. -/
structure AccountInfo where
  id : List Char
  name : Option (List Char)
deriving DecidableEq, Repr

/-- Name cleanup of `addAccount`: given `trimmedName` (`none` when
`name?.trim()` was `undefined`), strip every `"` and `'`, re-trim, and
map empty results to `undefined`. -/
def cleanNameOf : Option (List Char) → Option (List Char)
  | none => none
  | some t =>
    if t.isEmpty then none
    else
      let c := jsTrim (t.filter (fun c => c ≠ '"' ∧ c.toNat ≠ 39))
      if c.isEmpty then none else some c

/-- The inner `addAccount` closure of `extractAccounts`.  The state is the
insertion-ordered `Map` (`Array.from(map.values())` returns insertion
order).  `.error ()` models the TypeError thrown by `id.trim()` on a
truthy non-string id, or by `name?.trim()` on a non-nullish non-string
name (reached only once the id validated). -/
def addAccount (st : List AccountInfo) (idv namev : Option Json) :
    Except Unit (List AccountInfo) :=
  if ¬ truthyOpt idv then .ok st
  else
    match idv with
    | some (Json.str s) =>
      let trimmedId := jsTrim s
      if ¬ isHex32 trimmedId then .ok st
      else
        match namev with
        | none => .ok (pushNew st trimmedId none)
        | some Json.null => .ok (pushNew st trimmedId none)
        | some (Json.str t) => .ok (pushNew st trimmedId (cleanNameOf (some (jsTrim t))))
        | some _ => .error ()
    | _ => .error ()
where
  pushNew (st : List AccountInfo) (id : List Char) (name : Option (List Char)) :
      List AccountInfo :=
    if st.any (fun b => b.id = id) then st else st ++ [⟨id, name⟩]

/-- The two-step property read `j.k1?.k2` (`?.` turns `null`/`undefined`
into `undefined`; property reads on other non-objects yield `undefined`). -/
def jsGetChain (j : Json) (k1 k2 : String) : Option Json :=
  match jsGet j k1 with
  | none => none
  | some a => jsGet a k2

/-- The candidates the structured-JSON strategy feeds to `addAccount`, in
source order: first `data.account`, then the elements of `data.accounts`
and `data.result.accounts` (when arrays).  `.error ()` models the
TypeError of `entry.id` when an array element is `null`. -/
def jsonAccountEvents (clean : List Char) :
    Except Unit (List (Option Json × Option Json)) :=
  match parseJsonFromOutput clean with
  | none => .ok []
  | some data =>
    if ¬ truthy data then .ok []
    else do
      let accountEv : Option Json × Option Json :=
        (jsGetChain data "account" "id", jsGetChain data "account" "name")
      let listA := match jsGet data "accounts" with
        | some (Json.arr xs) => xs
        | _ => []
      let listB := match jsGet data "result" with
        | some r =>
          if truthy r then
            match jsGet r "accounts" with
            | some (Json.arr xs) => xs
            | _ => []
          else []
        | none => []
      let entryEvs ← (listA ++ listB).mapM (fun e =>
        match e with
        | Json.null => .error ()
        | _ => .ok ((jsGet e "id", jsGet e "name") : Option Json × Option Json))
      return accountEv :: entryEvs

/-- Vertical-bar-like delimiters of the table-row shape (`|` or `│`). -/
def tableDelim (c : Char) : Bool := c = '|' || c.toNat = 0x2502

/-- `/^[│\|].*[│\|]$/.test t` on a (trimmed, newline-free) line. -/
def isTableRow (t : List Char) : Bool :=
  2 ≤ t.length &&
    (match t.head?, t.getLast? with
     | some a, some b => tableDelim a && tableDelim b
     | _, _ => false)

/-- Table-row strategy: split on the delimiters, trim, drop empties; the
first two cells are `(name, id)` unless they form the header row. -/
def tableRowEvent (t : List Char) : List (Option Json × Option Json) :=
  let parts := ((t.splitOnP tableDelim).map jsTrim).filter (fun p => ¬ p.isEmpty)
  match parts with
  | maybeName :: maybeId :: _ =>
    if ¬ containsCI (chars "account name") maybeName &&
       ¬ containsCI (chars "account id") maybeId then
      [(some (Json.str maybeId), some (Json.str maybeName))]
    else []
  | _ => []

/-- After group 1 of `/(.+?)\s*\(id:\s*([0-9a-f]{32})\)/i`: match
`\s*\(id:\s*` then exactly 32 hex chars then `)`, returning the hex
group.  All adjacent classes are disjoint, so greedy matching is
deterministic. -/
def inlineTail (l : List Char) : Option (List Char) :=
  match l.dropWhile isJsSpace with
  | '(' :: l2 =>
    match dropLitCI (chars "id:") l2 with
    | some l3 =>
      let l4 := l3.dropWhile isJsSpace
      let hex := l4.take 32
      if hex.length = 32 && hex.all isHexDigitCI then
        match l4.drop 32 with
        | ')' :: _ => some hex
        | _ => none
      else none
    | none => none
  | _ => none

/-- Helper of `inlineFrom`: `g1rev` is the reversed group 1 so far; group
1 (`.+?`, lazy, newline-free) grows one character at a time until
`inlineTail` succeeds. -/
def inlineGrow (g1rev : List Char) (l : List Char) : Option (List Char × List Char) :=
  match inlineTail l with
  | some hex => some (g1rev.reverse, hex)
  | none =>
    match l with
    | [] => none
    | c :: rest =>
      if c = '\r' ∨ c = '\n' then none else inlineGrow (c :: g1rev) rest

/-- Match the inline regex with the match anchored at the head of the
input. -/
def inlineFrom : List Char → Option (List Char × List Char)
  | [] => none
  | c :: rest =>
    if c = '\r' ∨ c = '\n' then none else inlineGrow [c] rest

/-- `trimmed.match(/(.+?)\s*\(id:\s*([0-9a-f]{32})\)/i)`: leftmost match,
returning `(group1, group2)`. -/
def findInline : List Char → Option (List Char × List Char)
  | [] => none
  | c :: rest =>
    match inlineFrom (c :: rest) with
    | some r => some r
    | none => findInline rest

/-- Match `/account\s+id\s*:\s*([0-9a-f]{32})/i` anchored at the head of
the input (note: no boundary after the 32 hex chars — longer hex runs
still match on their first 32 characters). -/
def colonFrom (l : List Char) : Option (List Char) :=
  match dropLitCI (chars "account") l with
  | none => none
  | some l1 =>
    match l1 with
    | [] => none
    | c :: _ =>
      if ¬ isJsSpace c then none
      else
        match dropLitCI (chars "id") (l1.dropWhile isJsSpace) with
        | none => none
        | some l3 =>
          match l3.dropWhile isJsSpace with
          | ':' :: l5 =>
            let l6 := l5.dropWhile isJsSpace
            let hex := l6.take 32
            if hex.length = 32 && hex.all isHexDigitCI then some hex else none
          | _ => none

/-- `trimmed.match(/account\s+id\s*:\s*([0-9a-f]{32})/i)`: leftmost. -/
def findColon : List Char → Option (List Char)
  | [] => none
  | c :: rest =>
    match colonFrom (c :: rest) with
    | some h => some h
    | none => findColon rest

/-- The `addAccount` calls one line of cleaned output produces, following
the source's `continue` structure: table row, else inline parenthetical,
else labeled colon form. -/
def lineEvents (line : List Char) : List (Option Json × Option Json) :=
  let trimmed := jsTrim line
  if trimmed.isEmpty then []
  else if isTableRow trimmed then tableRowEvent trimmed
  else
    match findInline trimmed with
    | some (name, hex) => [(some (Json.str hex), some (Json.str name))]
    | none =>
      match findColon trimmed with
      | some hex => [(some (Json.str hex), none)]
      | none => []

/-- All `addAccount` invocations of `extractAccounts`, in source order:
the structured-JSON strategy first, then every line of the cleaned
output. -/
def accountEvents (clean : List Char) :
    Except Unit (List (Option Json × Option Json)) := do
  let jsonEvs ← jsonAccountEvents clean
  return jsonEvs ++ ((splitLines clean).map lineEvents).flatten

/-- `extractAccounts` of `setup.ts`.  `.error ()` is the TypeError escape
(see `addAccount` / `jsonAccountEvents`); `.ok` carries the accounts in
first-discovery order. -/
def extractAccounts (raw : List Char) : Except Unit (List AccountInfo) := do
  let clean := stripAnsi raw
  let evs ← accountEvents clean
  evs.foldlM (fun st ev => addAccount st ev.1 ev.2) []

theorem idxOfFirst_cons_hit {c : Char} {xs ys : List Char} (h : c ∉ xs) :
    idxOfFirst c (xs ++ c :: ys) = some xs.length := by
  induction xs with
  | nil => simp [idxOfFirst]
  | cons x xs ih =>
    have hx : x ≠ c := fun he => h (he ▸ List.mem_cons_self x xs)
    have hxs : c ∉ xs := fun hm => h (List.mem_cons_of_mem x hm)
    simp [idxOfFirst, hx, ih hxs]

theorem idxOfFirst_append_ge {c : Char} {a b : List Char} {i : Nat}
    (ha : c ∉ a) (h : idxOfFirst c (a ++ b) = some i) : a.length ≤ i := by
  induction a generalizing i with
  | nil => exact Nat.zero_le _
  | cons x xs ih =>
    have hx : x ≠ c := fun he => ha (he ▸ List.mem_cons_self x xs)
    have hxs : c ∉ xs := fun hm => ha (List.mem_cons_of_mem x hm)
    simp only [List.cons_append, idxOfFirst, hx, if_false] at h
    rcases Option.map_eq_some'.mp h with ⟨j, hj, hji⟩
    subst hji
    simpa using Nat.succ_le_succ (ih hxs hj)

theorem idxOfFirst_lt_length {c : Char} {l : List Char} {i : Nat}
    (h : idxOfFirst c l = some i) : i < l.length := by
  induction l generalizing i with
  | nil => cases h
  | cons x xs ih =>
    by_cases hx : x = c
    · rw [idxOfFirst, if_pos hx] at h
      cases h
      simp
    · simp only [idxOfFirst, hx, if_false] at h
      rcases Option.map_eq_some'.mp h with ⟨j, hj, hji⟩
      subst hji
      simpa using Nat.succ_lt_succ (ih hj)

theorem stripAnsi_nil : stripAnsi [] = [] := rfl

theorem parseJsonFromOutput_recovers
    (raw pre mid post : List Char) (v : Json)
    (h : stripAnsi raw = pre ++ ('{' :: mid ++ ['}']) ++ post)
    (hpre : '{' ∉ pre) (hpost : '}' ∉ post)
    (hjson : jsonParse ('{' :: mid ++ ['}']) = some v) :
    parseJsonFromOutput raw = some v := by
  have hobj : stripAnsi raw = pre ++ '{' :: (mid ++ '}' :: post) := by
    simpa [List.append_assoc] using h
  have hfb : idxOfFirst '{' (stripAnsi raw) = some pre.length := by
    rw [hobj]; exact idxOfFirst_cons_hit hpre
  have hrev : (stripAnsi raw).reverse
      = post.reverse ++ '}' :: (mid.reverse ++ '{' :: pre.reverse) := by
    rw [hobj]; simp
  have hpr : '}' ∉ post.reverse := by simpa using hpost
  have hfr : idxOfFirst '}' (stripAnsi raw).reverse = some post.reverse.length := by
    rw [hrev]; exact idxOfFirst_cons_hit hpr
  have hL : (stripAnsi raw).length = pre.length + mid.length + post.length + 2 := by
    rw [hobj]; simp [List.length_append, List.length_cons]; omega
  have hlb : idxOfLast '}' (stripAnsi raw) = some (pre.length + mid.length + 1) := by
    unfold idxOfLast
    rw [hfr]
    simp [hL]
    omega
  have hraw : raw.isEmpty = false := by
    cases raw with
    | nil => rw [stripAnsi_nil] at hobj; exact absurd hobj (by simp)
    | cons c t => rfl
  rw [List.append_assoc] at h
  have hdrop : (stripAnsi raw).drop pre.length = ('{' :: mid ++ ['}']) ++ post := by
    rw [h]; exact List.drop_left pre _
  have hslice :
      ((stripAnsi raw).drop pre.length).take (pre.length + mid.length + 1 + 1 - pre.length)
      = '{' :: mid ++ ['}'] := by
    rw [hdrop]
    have hn : pre.length + mid.length + 1 + 1 - pre.length = ('{' :: mid ++ ['}']).length := by
      simp; omega
    rw [hn]
    exact List.take_left _ _
  have hcmp : ¬ (pre.length + mid.length + 1 ≤ pre.length) := by omega
  simp only [parseJsonFromOutput, hraw, Bool.false_eq_true, if_false, hfb, hlb, hcmp,
    List.isEmpty_iff]
  rw [hslice, hjson]

theorem parseJsonFromOutput_null
    (raw a b : List Char)
    (h : stripAnsi raw = a ++ b) (ha : '{' ∉ a) (hb : '}' ∉ b) :
    parseJsonFromOutput raw = none := by
  by_cases hraw : raw.isEmpty
  · simp [parseJsonFromOutput, hraw]
  · rcases h1 : idxOfFirst '{' (stripAnsi raw) with _ | fb
    · simp [parseJsonFromOutput, hraw, h1]
    · rcases h2 : idxOfLast '}' (stripAnsi raw) with _ | lb
      · simp [parseJsonFromOutput, hraw, h1, h2]
      · have hfb : a.length ≤ fb := idxOfFirst_append_ge ha (h ▸ h1)
        have h2c := h2
        unfold idxOfLast at h2c
        rcases Option.map_eq_some'.mp h2c with ⟨i, hi, hlb⟩
        have hrev : (stripAnsi raw).reverse = b.reverse ++ a.reverse := by rw [h]; simp
        have hbi : b.length ≤ i := by
          have := idxOfFirst_append_ge (by simpa using hb) (hrev ▸ hi)
          simpa using this
        have hiL : i < (stripAnsi raw).length := by
          have := idxOfFirst_lt_length hi
          simpa using this
        have hLab : (stripAnsi raw).length = a.length + b.length := by rw [h]; simp
        have hle : lb ≤ fb := by omega
        simp [parseJsonFromOutput, hraw, h1, h2, hle]

theorem parseJsonFromOutput_slice
    (raw : List Char) (fb lb : Nat)
    (hraw : raw ≠ [])
    (h1 : idxOfFirst '{' (stripAnsi raw) = some fb)
    (h2 : idxOfLast '}' (stripAnsi raw) = some lb)
    (hlt : fb < lb) :
    parseJsonFromOutput raw = jsonParse (((stripAnsi raw).drop fb).take (lb + 1 - fb)) := by
  have he : raw.isEmpty = false := by
    cases raw with
    | nil => exact absurd rfl hraw
    | cons c t => rfl
  have hc : ¬ (lb ≤ fb) := by omega
  simp [parseJsonFromOutput, he, h1, h2, hc]

/-- **C2**: `parseJsonFromOutput` recovers a well-formed JSON object
embedded in prose/ANSI noise provided the leading noise contains no `\x7b`
and the trailing noise no `\x7d`; it returns `null` whenever the cleaned
text splits into a `\x7b`-free part followed by a `\x7d`-free part (no
brace pair, or last `\x7d` not after first `\x7b`); and when both braces
exist in order its result is exactly `JSON.parse` of the brace-delimited
slice (`null` when that parse fails).  Total by construction, so it never
throws. -/
theorem C2_parseJsonFromOutput_contract :
    (∀ (raw pre mid post : List Char) (v : Json),
      stripAnsi raw = pre ++ ('{' :: mid ++ ['}']) ++ post →
      '{' ∉ pre → '}' ∉ post →
      jsonParse ('{' :: mid ++ ['}']) = some v →
      parseJsonFromOutput raw = some v) ∧
    (∀ (raw a b : List Char),
      stripAnsi raw = a ++ b → '{' ∉ a → '}' ∉ b →
      parseJsonFromOutput raw = none) ∧
    (∀ (raw : List Char) (fb lb : Nat),
      raw ≠ [] →
      idxOfFirst '{' (stripAnsi raw) = some fb →
      idxOfLast '}' (stripAnsi raw) = some lb →
      fb < lb →
      parseJsonFromOutput raw = jsonParse (((stripAnsi raw).drop fb).take (lb + 1 - fb))) :=
  ⟨parseJsonFromOutput_recovers, parseJsonFromOutput_null, parseJsonFromOutput_slice⟩

/-- Witness for C2 at concrete inputs: an ANSI-wrapped object is
recovered, a brace-free/misordered text gives `none`, and a parse-failing
slice gives `none`. -/
theorem C2_parseJsonFromOutput_contract_witness :
    parseJsonFromOutput (chars "noise \x1b[32m\x7b\"a\":1\x7d end")
      = some (Json.obj [(chars "a", Json.num (chars "1"))]) ∧
    parseJsonFromOutput (chars "\x7d no pair here") = none ∧
    parseJsonFromOutput (chars "x \x7b bad json \x7d y") = none :=
  ⟨C2_parseJsonFromOutput_contract.1 (chars "noise \x1b[32m\x7b\"a\":1\x7d end")
      (chars "noise ") (chars "\"a\":1") (chars " end") _ (by rfl) (by decide) (by decide) (by rfl),
   C2_parseJsonFromOutput_contract.2.1 (chars "\x7d no pair here")
      (chars "\x7d no pair here") [] (by rfl) (by decide) (by decide),
   (C2_parseJsonFromOutput_contract.2.2 (chars "x \x7b bad json \x7d y") 2 13
      (by decide) (by rfl) (by rfl) (by decide)).trans (by rfl)⟩

/-- Counterexample to C2 as stated: the text `\x7bx\x7d \x7b"a":1\x7d`
contains exactly one well-formed JSON object (`\x7b"a":1\x7d`; the prose
fragment `\x7bx\x7d` is not valid JSON), yet `parseJsonFromOutput`
returns `none`, because the slice runs from the *first* `\x7b` to the
*last* `\x7d` and fails to parse. -/
theorem C2_counterexample :
    parseJsonFromOutput (chars "\x7bx\x7d \x7b\"a\":1\x7d") = none ∧
    jsonParse (chars "\x7b\"a\":1\x7d") = some (Json.obj [(chars "a", Json.num (chars "1"))]) ∧
    jsonParse (chars "\x7bx\x7d") = none ∧
    chars "\x7bx\x7d \x7b\"a\":1\x7d"
      = chars "\x7bx\x7d " ++ chars "\x7b\"a\":1\x7d" ++ [] :=
  ⟨by rfl, by rfl, by rfl, by rfl⟩

/-- Spec-side view of one `addAccount` invocation: the candidate it
contributes, if any.  A candidate exists exactly when the id is a string
whose trim matches `^[a-f0-9]\x7b32\x7d$/i`; its name is the cleaned-up
name when that is a nonempty string.  (On events where `addAccount`
throws, the value is irrelevant: the refinement below is conditioned on
a non-throwing run.) -/
def candidateOf : Option Json × Option Json → Option AccountInfo
  | (some (Json.str s), namev) =>
    let tid := jsTrim s
    if isHex32 tid then
      some ⟨tid,
        match namev with
        | some (Json.str t) => cleanNameOf (some (jsTrim t))
        | _ => none⟩
    else none
  | _ => none

/-- Spec-side deduplicating insert: keep the first record seen for an id
(first-seen name wins, insertion order preserved). -/
def specInsert (st : List AccountInfo) (a : AccountInfo) : List AccountInfo :=
  if st.any (fun b => b.id = a.id) then st else st ++ [a]

/-- Deduplicate a candidate list by id, keeping first occurrences in
first-discovery order. -/
def dedupFirst (l : List AccountInfo) : List AccountInfo := l.foldl specInsert []

/-- The flat, ordered candidate list of all four extraction strategies
(structured JSON, then per line: table row / inline parenthetical /
labeled colon form), with invalid ids dropped. -/
def allCandidates (raw : List Char) : List AccountInfo :=
  match accountEvents (stripAnsi raw) with
  | .ok evs => evs.filterMap candidateOf
  | .error _ => []

theorem addAccount_ok {st st' : List AccountInfo} {ev : Option Json × Option Json}
    (h : addAccount st ev.1 ev.2 = .ok st') :
    st' = (candidateOf ev).elim st (specInsert st) := by
  rcases ev with ⟨idv, namev⟩
  rcases idv with _ | j
  · simp [addAccount, truthyOpt] at h
    simp [candidateOf, ← h]
  · cases j with
    | null => simp [addAccount, truthyOpt, truthy] at h; simp [candidateOf, ← h]
    | bool b =>
      cases b with
      | false => simp [addAccount, truthyOpt, truthy] at h; simp [candidateOf, ← h]
      | true => simp [addAccount, truthyOpt, truthy] at h
    | num lex =>
      by_cases hz : jsonNumIsZero lex = true
      · simp [addAccount, truthyOpt, truthy, hz] at h
        simp [candidateOf, ← h]
      · simp [addAccount, truthyOpt, truthy, hz] at h
    | arr xs => simp [addAccount, truthyOpt, truthy] at h
    | obj fs => simp [addAccount, truthyOpt, truthy] at h
    | str s =>
      by_cases hs : s.isEmpty
      · simp [addAccount, truthyOpt, truthy, hs] at h
        have : jsTrim s = [] := by
          rcases s with _ | ⟨c, t⟩
          · rfl
          · simp at hs
        simp [candidateOf, this, isHex32, ← h]
      · by_cases hhex : isHex32 (jsTrim s) = true
        · rcases namev with _ | nj
          · simp [addAccount, truthyOpt, truthy, hs, hhex] at h
            simp [candidateOf, hhex, ← h, addAccount.pushNew, specInsert]
          · cases nj with
            | null =>
              simp [addAccount, truthyOpt, truthy, hs, hhex] at h
              simp [candidateOf, hhex, ← h, addAccount.pushNew, specInsert]
            | str t =>
              simp [addAccount, truthyOpt, truthy, hs, hhex] at h
              simp [candidateOf, hhex, ← h, addAccount.pushNew, specInsert]
            | bool b => simp [addAccount, truthyOpt, truthy, hs, hhex] at h
            | num lex => simp [addAccount, truthyOpt, truthy, hs, hhex] at h
            | arr xs => simp [addAccount, truthyOpt, truthy, hs, hhex] at h
            | obj fs => simp [addAccount, truthyOpt, truthy, hs, hhex] at h
        · simp [addAccount, truthyOpt, truthy, hs, hhex] at h
          simp [candidateOf, hhex, ← h]

theorem foldlM_addAccount_ok {evs : List (Option Json × Option Json)}
    {st out : List AccountInfo}
    (h : evs.foldlM (fun st ev => addAccount st ev.1 ev.2) st = Except.ok out) :
    out = (evs.filterMap candidateOf).foldl specInsert st := by
  induction evs generalizing st with
  | nil =>
    simp only [List.foldlM_nil, pure, Except.pure] at h
    cases h
    simp
  | cons e rest ih =>
    rw [List.foldlM_cons] at h
    rcases he : addAccount st e.1 e.2 with err | st1 <;> rw [he] at h <;>
      simp only [Bind.bind, Except.bind] at h
    · exact absurd h (by simp)
    · have hout := ih h
      have hst1 := addAccount_ok he
      rcases hc : candidateOf e with _ | a <;> rw [hc] at hst1
      · simp only [Option.elim] at hst1
        subst hst1
        simpa [List.filterMap_cons, hc] using hout
      · simp only [Option.elim] at hst1
        subst hst1
        simpa [List.filterMap_cons, hc] using hout

theorem extractAccounts_ok {raw : List Char} {accs : List AccountInfo}
    (h : extractAccounts raw = .ok accs) :
    accs = dedupFirst (allCandidates raw) := by
  rcases hev : accountEvents (stripAnsi raw) with err | evs
  · exfalso
    simp [extractAccounts, hev, Bind.bind, Except.bind] at h
  · have h2 : List.foldlM (fun st ev => addAccount st ev.1 ev.2) [] evs
        = Except.ok accs := by
      simpa [extractAccounts, hev, Bind.bind, Except.bind] using h
    unfold allCandidates dedupFirst
    rw [hev]
    exact foldlM_addAccount_ok h2

theorem mem_foldl_specInsert {a : AccountInfo} {l st : List AccountInfo}
    (h : a ∈ l.foldl specInsert st) : a ∈ st ∨ a ∈ l := by
  induction l generalizing st with
  | nil => exact Or.inl (by simpa using h)
  | cons e rest ih =>
    rw [List.foldl_cons] at h
    rcases ih h with hst | hrest
    · unfold specInsert at hst
      by_cases hc : st.any (fun b => b.id = e.id) = true
      · rw [if_pos hc] at hst; exact Or.inl hst
      · rw [if_neg hc] at hst
        rcases List.mem_append.mp hst with h1 | h2
        · exact Or.inl h1
        · simp at h2; subst h2; exact Or.inr (List.mem_cons_self _ _)
    · exact Or.inr (List.mem_cons_of_mem _ hrest)

theorem candidateOf_isHex32 {ev : Option Json × Option Json} {a : AccountInfo}
    (h : candidateOf ev = some a) : isHex32 a.id = true := by
  rcases ev with ⟨idv, namev⟩
  rcases idv with _ | j
  · simp [candidateOf] at h
  · cases j <;> simp [candidateOf] at h
    case str s =>
      obtain ⟨hh, hrec⟩ := h
      subst hrec
      exact hh

/-- `promptForAccountId` of `setup.ts`, over the stream of answers the
operator types: re-prompt until an answer trims to a 32-hex id, then read
one more answer as the optional label (`none` when the stream runs out,
i.e. the loop would still be waiting). -/
def promptForAccountId : List (List Char) → Option AccountInfo
  | [] => none
  | ans :: rest =>
    let accountId := jsTrim ans
    if isHex32 accountId then
      match rest with
      | [] => none
      | label :: _ =>
        let name := jsTrim label
        some ⟨accountId, if name.isEmpty then none else some name⟩
    else promptForAccountId rest

theorem promptForAccountId_isHex32 {inputs : List (List Char)} {acc : AccountInfo}
    (h : promptForAccountId inputs = some acc) : isHex32 acc.id = true := by
  induction inputs with
  | nil => cases h
  | cons ans rest ih =>
    simp only [promptForAccountId] at h
    by_cases hid : isHex32 (jsTrim ans) = true
    · rw [if_pos hid] at h
      rcases rest with _ | ⟨label, more⟩
      · cases h
      · cases h
        exact hid
    · rw [if_neg hid] at h
      exact ih h

theorem extractAccounts_ids_hex {raw : List Char} {accs : List AccountInfo}
    (h : extractAccounts raw = .ok accs) :
    ∀ a ∈ accs, isHex32 a.id = true := by
  intro a ha
  rw [extractAccounts_ok h] at ha
  have hm := @mem_foldl_specInsert a (allCandidates raw) []
    (by simpa [dedupFirst] using ha)
  rcases hm with h0 | hl
  · cases h0
  · unfold allCandidates at hl
    rcases hev : accountEvents (stripAnsi raw) with err | evs <;> rw [hev] at hl
    · cases hl
    · rcases List.mem_filterMap.mp hl with ⟨ev, _, hcand⟩
      exact candidateOf_isHex32 hcand

/-- **C3** (amended): whenever `extractAccounts` returns normally, its
result is exactly the first-discovery-ordered deduplication (by id,
first-seen record wins) of the flat candidate list contributed by all
four strategies — structured JSON, table rows, inline parenthetical,
labeled colon form — with every returned id matching `^[a-f0-9]\x7b32\x7d$/i`;
string candidates with invalid ids are silently skipped.  (The original
"never an error" is false: see `C3_counterexample` — a truthy non-string
id raises a TypeError.) -/
theorem C3_extractAccounts_merge (raw : List Char) (accs : List AccountInfo)
    (h : extractAccounts raw = .ok accs) :
    accs = dedupFirst (allCandidates raw) ∧
    ∀ a ∈ accs, isHex32 a.id = true :=
  ⟨extractAccounts_ok h, extractAccounts_ids_hex h⟩

/-- Witness for C3: a colon-form line yields its deduplicated singleton
through the refinement equation. -/
theorem C3_extractAccounts_merge_witness :
    [(⟨List.replicate 32 'a', none⟩ : AccountInfo)]
      = dedupFirst (allCandidates (chars "account id: " ++ List.replicate 32 'a')) ∧
    ∀ a ∈ [(⟨List.replicate 32 'a', none⟩ : AccountInfo)], isHex32 a.id = true :=
  C3_extractAccounts_merge _ _ (by rfl)

/-- Counterexample to C3 as stated ("a candidate whose id does not match
is silently skipped, never an error"): a JSON payload whose `account.id`
is the *number* `123` is truthy but not a string, so `id.trim()` raises a
TypeError — `extractAccounts` throws instead of skipping. -/
theorem C3_counterexample :
    extractAccounts (chars "\x7b\"account\":\x7b\"id\":123\x7d\x7d") = .error () := by
  rfl

/-- **C4** (amended): a 31-hex candidate yields no entry in any of the
four shapes; a 33-hex candidate yields no entry in the JSON, table and
inline shapes, but in the colon form the boundary-less regex captures its
first 32 characters and yields that truncated id; two distinct 32-hex ids
in recognized shapes yield exactly two entries in first-appearance order
(bare hex in unrecognized prose yields none — see `C4_counterexample`). -/
theorem C4_hex_length_discipline :
    extractAccounts (chars "account id: " ++ List.replicate 31 'a') = .ok [] ∧
    extractAccounts (chars "Acme (id: " ++ List.replicate 31 'a' ++ chars ")") = .ok [] ∧
    extractAccounts (chars "| Acme | " ++ List.replicate 31 'a' ++ chars " |") = .ok [] ∧
    extractAccounts (chars "\x7b\"account\":\x7b\"id\":\"" ++ List.replicate 31 'a'
      ++ chars "\"\x7d\x7d") = .ok [] ∧
    extractAccounts (chars "Acme (id: " ++ List.replicate 33 'a' ++ chars ")") = .ok [] ∧
    extractAccounts (chars "| Acme | " ++ List.replicate 33 'a' ++ chars " |") = .ok [] ∧
    extractAccounts (chars "\x7b\"account\":\x7b\"id\":\"" ++ List.replicate 33 'a'
      ++ chars "\"\x7d\x7d") = .ok [] ∧
    extractAccounts (chars "account id: " ++ List.replicate 33 'a')
      = .ok [⟨List.replicate 32 'a', none⟩] ∧
    extractAccounts (chars "account id: " ++ List.replicate 32 'a'
        ++ chars "\naccount id: " ++ List.replicate 32 'b')
      = .ok [⟨List.replicate 32 'a', none⟩, ⟨List.replicate 32 'b', none⟩] :=
  ⟨by rfl, by rfl, by rfl, by rfl, by rfl, by rfl, by rfl, by rfl, by rfl⟩

/-- Counterexample to C4 as stated: (1) a 33-hex string in the colon form
does *not* yield zero entries — the regex has no trailing boundary, so
its first 32 characters come back as an id; (2) two distinct valid 32-hex
ids in plain prose (no recognized shape) yield zero entries, not two. -/
theorem C4_counterexample :
    extractAccounts (chars "account id: " ++ List.replicate 33 'b')
      = .ok [⟨List.replicate 32 'b', none⟩] ∧
    extractAccounts (chars "x " ++ List.replicate 32 'a' ++ chars " y "
        ++ List.replicate 32 'b') = .ok [] :=
  ⟨by rfl, by rfl⟩

/-- **C6** (amended): every `AccountInfo` produced by `extractAccounts`
or by the manual account-id prompt has an id of exactly 32 *hexadecimal*
characters — but case-insensitively and stored as entered, not
necessarily lowercase (see `C6_counterexample`). -/
theorem C6_account_id_validated (raw : List Char) (accs : List AccountInfo)
    (inputs : List (List Char)) (acc : AccountInfo)
    (hx : extractAccounts raw = .ok accs)
    (hp : promptForAccountId inputs = some acc) :
    (∀ a ∈ accs, isHex32 a.id = true) ∧ isHex32 acc.id = true :=
  ⟨extractAccounts_ids_hex hx, promptForAccountId_isHex32 hp⟩

/-- Witness for C6: a (non-lowercase) extracted id and a prompted id are
both 32-hex. -/
theorem C6_account_id_validated_witness :
    (∀ a ∈ [(⟨List.replicate 32 'A', none⟩ : AccountInfo)], isHex32 a.id = true) ∧
    isHex32 (List.replicate 32 'c') = true :=
  C6_account_id_validated (chars "account id: " ++ List.replicate 32 'A')
    [⟨List.replicate 32 'A', none⟩]
    [chars "oops", List.replicate 32 'c', chars "my label"]
    ⟨List.replicate 32 'c', some (chars "my label")⟩ (by rfl) (by rfl)

/-- Counterexample to C6 as stated: the validation regex carries the `/i`
flag and the id is stored as entered, so an all-uppercase 32-hex id is
produced verbatim — not "32 lowercase hexadecimal characters". -/
theorem C6_counterexample :
    extractAccounts (chars "account id: " ++ List.replicate 32 'A')
      = .ok [⟨List.replicate 32 'A', none⟩] ∧
    isLowerHex32 (List.replicate 32 'A') = false :=
  ⟨by rfl, by rfl⟩

/-- Character class `[0-9a-f-]` under `/i`. -/
def isHexDashCI (c : Char) : Bool := isHexDigitCI c || c = '-'

/-- Word chars plus dash, the class `[\w-]`. -/
def isWordDash (c : Char) : Bool :=
  ('a' ≤ c ∧ c ≤ 'z') || ('A' ≤ c ∧ c ≤ 'Z') || ('0' ≤ c ∧ c ≤ '9') || c = '_' || c = '-'

/-- Match `/"database_id"\s*:\s*"([0-9a-f-]\x7b36\x7d)"/i` anchored at the head. -/
def dbIdQuotedFrom (l : List Char) : Option (List Char) :=
  match dropLitCI (chars "\"database_id\"") l with
  | none => none
  | some l1 =>
    match l1.dropWhile isJsSpace with
    | ':' :: l2 =>
      match l2.dropWhile isJsSpace with
      | '"' :: l3 =>
        let g := l3.take 36
        if g.length = 36 && g.all isHexDashCI then
          match l3.drop 36 with
          | '"' :: _ => some g
          | _ => none
        else none
      | _ => none
    | _ => none

/-- Leftmost match of the quoted `database_id` regex. -/
def findDbIdQuoted : List Char → Option (List Char)
  | [] => none
  | c :: rest =>
    match dbIdQuotedFrom (c :: rest) with
    | some g => some g
    | none => findDbIdQuoted rest

/-- Match `/"database_name"\s*:\s*"([^"]+)"/i` anchored at the head. -/
def dbNameQuotedFrom (l : List Char) : Option (List Char) :=
  match dropLitCI (chars "\"database_name\"") l with
  | none => none
  | some l1 =>
    match l1.dropWhile isJsSpace with
    | ':' :: l2 =>
      match l2.dropWhile isJsSpace with
      | '"' :: l3 =>
        let g := l3.takeWhile (fun c => c ≠ '"')
        match l3.dropWhile (fun c => c ≠ '"') with
        | '"' :: _ => if g.isEmpty then none else some g
        | _ => none
      | _ => none
    | _ => none

/-- Leftmost match of the quoted `database_name` regex. -/
def findDbNameQuoted : List Char → Option (List Char)
  | [] => none
  | c :: rest =>
    match dbNameQuotedFrom (c :: rest) with
    | some g => some g
    | none => findDbNameQuoted rest

/-- Exactly `n` hex chars (case-insensitive). -/
def takeHexRun (n : Nat) (l : List Char) : Option (List Char × List Char) :=
  let g := l.take n
  if g.length = n && g.all isHexDigitCI then some (g, l.drop n) else none

/-- Match the bare 8-4-4-4-12 UUID regex anchored at the head. -/
def uuidFrom (l : List Char) : Option (List Char) := do
  let (a, l1) ← takeHexRun 8 l
  match l1 with
  | '-' :: l2 => do
    let (b, l3) ← takeHexRun 4 l2
    match l3 with
    | '-' :: l4 => do
      let (c, l5) ← takeHexRun 4 l4
      match l5 with
      | '-' :: l6 => do
        let (d, l7) ← takeHexRun 4 l6
        match l7 with
        | '-' :: l8 => do
          let (e, _) ← takeHexRun 12 l8
          some (a ++ '-' :: b ++ '-' :: c ++ '-' :: d ++ '-' :: e)
        | _ => none
      | _ => none
    | _ => none
  | _ => none

/-- Leftmost match of the bare UUID regex. -/
def findUuid : List Char → Option (List Char)
  | [] => none
  | c :: rest =>
    match uuidFrom (c :: rest) with
    | some g => some g
    | none => findUuid rest

/-- Match `/<pat>["']?([\w-]+)["']?/i` anchored at the head (`pat` is the
literal `DB ` or `database `).  The optional quote and `[\w-]+` classes
are disjoint, so greedy matching is deterministic. -/
def namePhraseFrom (pat : String) (l : List Char) : Option (List Char) :=
  match dropLitCI (chars pat) l with
  | none => none
  | some l1 =>
    let l2 := match l1 with
      | c :: t => if c = '"' ∨ c.toNat = 39 then t else l1
      | [] => l1
    let g := l2.takeWhile isWordDash
    if g.isEmpty then none else some g

/-- Leftmost match of the `DB "<name>"` / `database "<name>"` phrase. -/
def findNamePhrase (pat : String) : List Char → Option (List Char)
  | [] => none
  | c :: rest =>
    match namePhraseFrom pat (c :: rest) with
    | some g => some g
    | none => findNamePhrase pat rest

/-- `const payload = (data.result ?? data)` of `parseD1CreateResult`
(nullish `result` falls back to the top-level object). -/
def d1Payload (data : Json) : Json :=
  match jsGet data "result" with
  | none => data
  | some r => if r.isNull then data else r

/-- `payload.uuid ?? payload.id ?? payload.database_id ?? payload.databaseId`. -/
def d1JsonId (data : Json) : Option Json :=
  nsCoalesce (jsGet (d1Payload data) "uuid") (nsCoalesce (jsGet (d1Payload data) "id")
    (nsCoalesce (jsGet (d1Payload data) "database_id") (jsGet (d1Payload data) "databaseId")))

/-- `payload.name ?? payload.database_name ?? payload.databaseName ??
fallbackName` — always defined, thanks to the final fallback. -/
def d1JsonName (data : Json) (fallbackName : List Char) : Option Json :=
  nsCoalesce (jsGet (d1Payload data) "name") (nsCoalesce (jsGet (d1Payload data) "database_name")
    (nsCoalesce (jsGet (d1Payload data) "databaseName") (some (Json.str fallbackName))))

/-- `parseD1CreateResult` of `setup.ts`, transcribed with its early
returns: structured JSON first (id aliases `uuid`/`id`/`database_id`/
`databaseId`, name aliases `name`/`database_name`/`databaseName`,
defaulted to `fallbackName`), then the quoted `database_id` snippet, then
the bare UUID with an optional `DB`/`database` name phrase.  Results
keep the JS dynamic typing (`Json × Json`). -/
def parseD1CreateResult (raw fallbackName : List Char) : Option (Json × Json) :=
  let clean := stripAnsi raw
  let stage23 : Option (Json × Json) :=
    match findDbIdQuoted clean with
    | some id => some (Json.str id, Json.str ((findDbNameQuoted clean).getD fallbackName))
    | none =>
      match findUuid clean with
      | some id =>
        let nm := match findNamePhrase "DB " clean with
          | some g => some g
          | none => findNamePhrase "database " clean
        some (Json.str id, Json.str (nm.getD fallbackName))
      | none => none
  match parseJsonFromOutput clean with
  | none => stage23
  | some data =>
    if truthy data then
      match d1JsonId data, d1JsonName data fallbackName with
      | some i, some n => if truthy i && truthy n then some (i, n) else stage23
      | _, _ => stage23
    else stage23

/-- Spec-side stage 1: structured parse with aliases; succeeds when a
truthy id was found and the (defaulted) name is truthy. -/
def d1StageJson (clean fallbackName : List Char) : Option (Json × Json) :=
  match parseJsonFromOutput clean with
  | none => none
  | some data =>
    if truthy data then
      match d1JsonId data, d1JsonName data fallbackName with
      | some i, some n => if truthy i && truthy n then some (i, n) else none
      | _, _ => none
    else none

/-- Spec-side stage 2: quoted `database_id` regex with optional paired
`database_name`, defaulted to `fallbackName`. -/
def d1StageSnippet (clean fallbackName : List Char) : Option (Json × Json) :=
  (findDbIdQuoted clean).map
    (fun id => (Json.str id, Json.str ((findDbNameQuoted clean).getD fallbackName)))

/-- Spec-side stage 3: bare UUID regex with the optional `DB`/`database`
name phrase, defaulted to `fallbackName`. -/
def d1StageUuid (clean fallbackName : List Char) : Option (Json × Json) :=
  (findUuid clean).map
    (fun id =>
      (Json.str id,
       Json.str (((findNamePhrase "DB " clean).orElse
         (fun _ => findNamePhrase "database " clean)).getD fallbackName)))

theorem parseD1CreateResult_eq_stages (raw fallbackName : List Char) :
    parseD1CreateResult raw fallbackName
      = ((d1StageJson (stripAnsi raw) fallbackName).orElse
          (fun _ => (d1StageSnippet (stripAnsi raw) fallbackName).orElse
            (fun _ => d1StageUuid (stripAnsi raw) fallbackName))) := by
  have hstage23 :
      (match findDbIdQuoted (stripAnsi raw) with
       | some id => some (Json.str id,
           Json.str ((findDbNameQuoted (stripAnsi raw)).getD fallbackName))
       | none =>
         match findUuid (stripAnsi raw) with
         | some id =>
           let nm := match findNamePhrase "DB " (stripAnsi raw) with
             | some g => some g
             | none => findNamePhrase "database " (stripAnsi raw)
           some (Json.str id, Json.str (nm.getD fallbackName))
         | none => none)
      = ((d1StageSnippet (stripAnsi raw) fallbackName).orElse
          (fun _ => d1StageUuid (stripAnsi raw) fallbackName)) := by
    unfold d1StageSnippet d1StageUuid
    cases h2 : findDbIdQuoted (stripAnsi raw) <;>
      cases h3 : findUuid (stripAnsi raw) <;>
        cases h4 : findNamePhrase "DB " (stripAnsi raw) <;>
          simp [Option.orElse]
  unfold parseD1CreateResult d1StageJson
  cases hj : parseJsonFromOutput (stripAnsi raw) with
  | none =>
    try simp only [hj]
    simpa [Option.orElse] using hstage23
  | some data =>
    try simp only [hj]
    by_cases ht : truthy data = true
    · simp only [ht, if_true]
      cases hid : d1JsonId data with
      | none =>
        try simp only [hid]
        cases hnm : d1JsonName data fallbackName <;>
          simpa [Option.orElse] using hstage23
      | some i =>
        try simp only [hid]
        cases hnm : d1JsonName data fallbackName with
        | none =>
          try simp only [hnm]
          simpa [Option.orElse] using hstage23
        | some n =>
          try simp only [hnm]
          by_cases hin : (truthy i && truthy n) = true
          · simp [hin, Option.orElse]
          · simpa [Option.orElse, hin] using hstage23
    · simp only [ht, if_false]
      simpa [Option.orElse, ht] using hstage23

/-- **C5**: `parseD1CreateResult` equals the first-success-wins
composition of its three stages — structured JSON (id aliases
`uuid`/`id`/`database_id`/`databaseId`, name aliases
`name`/`database_name`/`databaseName`, name defaulted to `fallbackName`),
then the quoted `database_id` regex with optional paired
`database_name`, then the bare UUID regex with the optional
`DB`/`database` name phrase — and it returns `none` exactly when every
stage fails. -/
theorem C5_parseD1CreateResult_priority (raw fallbackName : List Char) :
    parseD1CreateResult raw fallbackName
      = ((d1StageJson (stripAnsi raw) fallbackName).orElse
          (fun _ => (d1StageSnippet (stripAnsi raw) fallbackName).orElse
            (fun _ => d1StageUuid (stripAnsi raw) fallbackName))) ∧
    (parseD1CreateResult raw fallbackName = none ↔
      (d1StageJson (stripAnsi raw) fallbackName = none ∧
       d1StageSnippet (stripAnsi raw) fallbackName = none ∧
       d1StageUuid (stripAnsi raw) fallbackName = none)) := by
  refine ⟨parseD1CreateResult_eq_stages raw fallbackName, ?_⟩
  rw [parseD1CreateResult_eq_stages raw fallbackName]
  cases d1StageJson (stripAnsi raw) fallbackName <;>
    cases d1StageSnippet (stripAnsi raw) fallbackName <;>
      cases d1StageUuid (stripAnsi raw) fallbackName <;>
        simp [Option.orElse]

/-- JS `String.prototype.indexOf` for a pattern string. -/
def firstOcc (pat : List Char) : List Char → Option Nat
  | [] => if pat.isEmpty then some 0 else none
  | c :: rest =>
    if pat.isPrefixOf (c :: rest) then some 0
    else (firstOcc pat rest).map (· + 1)

/-- JS `String.prototype.replace` with a plain pattern and a `$`-free
replacement: splice `rep` over the first occurrence of `pat`; identity
when `pat` is absent. -/
def replaceFirst (s pat rep : List Char) : List Char :=
  match firstOcc pat s with
  | none => s
  | some i => s.take i ++ rep ++ s.drop (i + pat.length)

def bindingTok : List Char := chars "\"binding\": \"BINDING_NAME\""

def dbNameTok : List Char := chars "\"database_name\": \"YOUR_DB_NAME\""

def dbIdTok : List Char := chars "\"database_id\": \"YOUR_DB_ID\""

def bindingRepl (b : List Char) : List Char := chars "\"binding\": \"" ++ b ++ ['"']

def dbNameRepl (n : List Char) : List Char := chars "\"database_name\": \"" ++ n ++ ['"']

def dbIdRepl (i : List Char) : List Char := chars "\"database_id\": \"" ++ i ++ ['"']

/-- The pure read-modify part of `updateWranglerConfig`: three sequential
`includes`/`replace` steps over the file content, plus the `changed`
flag; `changed = false` is the "already contains D1 configuration"
report, `changed = true` triggers the write. -/
def updateWranglerContent (content bindingName databaseName databaseId : List Char) :
    List Char × Bool :=
  let (u1, c1) :=
    if hasSub bindingTok content
    then (replaceFirst content bindingTok (bindingRepl bindingName), true)
    else (content, false)
  let (u2, c2) :=
    if hasSub dbNameTok u1
    then (replaceFirst u1 dbNameTok (dbNameRepl databaseName), true)
    else (u1, c1)
  if hasSub dbIdTok u2
  then (replaceFirst u2 dbIdTok (dbIdRepl databaseId), true)
  else (u2, c2)

theorem hasSub_of_firstOcc {pat l : List Char} {i : Nat}
    (h : firstOcc pat l = some i) : hasSub pat l = true := by
  induction l generalizing i with
  | nil =>
    unfold firstOcc at h
    unfold hasSub
    by_cases hp : pat.isEmpty
    · exact hp
    · rw [if_neg hp] at h; cases h
  | cons c rest ih =>
    unfold firstOcc at h
    unfold hasSub
    by_cases hp : pat.isPrefixOf (c :: rest) = true
    · simp [hp]
    · rw [if_neg (by simpa using hp)] at h
      rcases Option.map_eq_some'.mp h with ⟨j, hj, _⟩
      simp [ih hj]

theorem replaceFirst_of_decomp {a tok b : List Char} (rep : List Char)
    (hfst : firstOcc tok (a ++ tok ++ b) = some a.length) :
    replaceFirst (a ++ tok ++ b) tok rep = a ++ rep ++ b := by
  have htake : (a ++ tok ++ b).take a.length = a := by
    rw [List.append_assoc]
    exact List.take_left a _
  have hdrop : (a ++ tok ++ b).drop (a.length + tok.length) = b := by
    have he : a.length + tok.length = (a ++ tok).length := by simp
    rw [he]
    exact List.drop_left _ _
  have hr : replaceFirst (a ++ tok ++ b) tok rep
      = (a ++ tok ++ b).take a.length ++ rep
        ++ (a ++ tok ++ b).drop (a.length + tok.length) := by
    unfold replaceFirst
    rw [hfst]
  rw [hr, htake, hdrop]

/-- **C7**: the config patcher replaces each of the three placeholder
tokens only when present: token-free content is returned unchanged with
`changed = false` (the "already configured" report), and content with
exactly one placeholder (its only occurrence exhibited, the other two
tokens absent, and the inserted values not re-introducing a token) has
exactly that occurrence replaced, all other content unchanged, with
`changed = true`. -/
theorem C7_updateWranglerConfig_frame :
    (∀ content b n i,
      hasSub bindingTok content = false → hasSub dbNameTok content = false →
      hasSub dbIdTok content = false →
      updateWranglerContent content b n i = (content, false)) ∧
    (∀ a c b n i,
      firstOcc bindingTok (a ++ bindingTok ++ c) = some a.length →
      hasSub dbNameTok (a ++ bindingRepl b ++ c) = false →
      hasSub dbIdTok (a ++ bindingRepl b ++ c) = false →
      updateWranglerContent (a ++ bindingTok ++ c) b n i
        = (a ++ bindingRepl b ++ c, true)) ∧
    (∀ a c b n i,
      hasSub bindingTok (a ++ dbNameTok ++ c) = false →
      firstOcc dbNameTok (a ++ dbNameTok ++ c) = some a.length →
      hasSub dbIdTok (a ++ dbNameRepl n ++ c) = false →
      updateWranglerContent (a ++ dbNameTok ++ c) b n i
        = (a ++ dbNameRepl n ++ c, true)) ∧
    (∀ a c b n i,
      hasSub bindingTok (a ++ dbIdTok ++ c) = false →
      hasSub dbNameTok (a ++ dbIdTok ++ c) = false →
      firstOcc dbIdTok (a ++ dbIdTok ++ c) = some a.length →
      updateWranglerContent (a ++ dbIdTok ++ c) b n i
        = (a ++ dbIdRepl i ++ c, true)) := by
  refine ⟨?_, ?_, ?_, ?_⟩
  · intro content b n i h1 h2 h3
    simp [updateWranglerContent, h1, h2, h3]
  · intro a c b n i hfst h2 h3
    have h1 : hasSub bindingTok (a ++ bindingTok ++ c) = true := hasSub_of_firstOcc hfst
    have hrep := replaceFirst_of_decomp (bindingRepl b) hfst
    simp only [updateWranglerContent, h1, hrep, h2, h3, if_true, if_false,
      Bool.false_eq_true]
  · intro a c b n i h1 hfst h3
    have h2 : hasSub dbNameTok (a ++ dbNameTok ++ c) = true := hasSub_of_firstOcc hfst
    have hrep := replaceFirst_of_decomp (dbNameRepl n) hfst
    simp only [updateWranglerContent, h1, h2, hrep, h3, if_true, if_false,
      Bool.false_eq_true]
  · intro a c b n i h1 h2 hfst
    have h3 : hasSub dbIdTok (a ++ dbIdTok ++ c) = true := hasSub_of_firstOcc hfst
    have hrep := replaceFirst_of_decomp (dbIdRepl i) hfst
    simp only [updateWranglerContent, h1, h2, h3, hrep, if_true, if_false,
      Bool.false_eq_true]

/-- Witness for C7: a token-free file reports already-configured, and a
file with exactly one of each placeholder gets only that one replaced. -/
theorem C7_updateWranglerConfig_frame_witness :
    updateWranglerContent (chars "no placeholders") (chars "DB") (chars "N") (chars "I")
      = (chars "no placeholders", false) ∧
    updateWranglerContent (chars "x " ++ bindingTok ++ chars " y")
        (chars "DB") (chars "N") (chars "I")
      = (chars "x " ++ bindingRepl (chars "DB") ++ chars " y", true) ∧
    updateWranglerContent (chars "x " ++ dbNameTok ++ chars " y")
        (chars "DB") (chars "N") (chars "I")
      = (chars "x " ++ dbNameRepl (chars "N") ++ chars " y", true) ∧
    updateWranglerContent (chars "x " ++ dbIdTok ++ chars " y")
        (chars "DB") (chars "N") (chars "I")
      = (chars "x " ++ dbIdRepl (chars "I") ++ chars " y", true) :=
  ⟨C7_updateWranglerConfig_frame.1 (chars "no placeholders")
      (chars "DB") (chars "N") (chars "I") (by rfl) (by rfl) (by rfl),
   C7_updateWranglerConfig_frame.2.1 (chars "x ") (chars " y")
      (chars "DB") (chars "N") (chars "I") (by rfl) (by rfl) (by rfl),
   C7_updateWranglerConfig_frame.2.2.1 (chars "x ") (chars " y")
      (chars "DB") (chars "N") (chars "I") (by rfl) (by rfl) (by rfl),
   C7_updateWranglerConfig_frame.2.2.2 (chars "x ") (chars " y")
      (chars "DB") (chars "N") (chars "I") (by rfl) (by rfl) (by rfl)⟩

/-- The regex class `[a-zA-Z0-9]`. -/
def isAlnum (c : Char) : Bool :=
  ('a' ≤ c ∧ c ≤ 'z') || ('A' ≤ c ∧ c ≤ 'Z') || ('0' ≤ c ∧ c ≤ '9')

/-- Match `/whsec_[a-zA-Z0-9]+/` anchored at the head: the literal
`whsec_` followed by the maximal nonempty alphanumeric run. -/
def whsecFrom (l : List Char) : Option (List Char) :=
  match dropLit (chars "whsec_") l with
  | none => none
  | some r =>
    let run := r.takeWhile isAlnum
    if run.isEmpty then none else some (chars "whsec_" ++ run)

/-- `stdout.match(/whsec_[a-zA-Z0-9]+/)`: leftmost match. -/
def findWhsec : List Char → Option (List Char)
  | [] => none
  | c :: rest =>
    match whsecFrom (c :: rest) with
    | some t => some t
    | none => findWhsec rest

/-- Captured output of a failed external command. -/
structure ExecError where
  stdout : List Char
  stderr : List Char
deriving DecidableEq, Repr

/-- Result of `execAsync`. -/
inductive ExecOutcome where
  | ok (stdout stderr : List Char)
  | failed (e : ExecError)
deriving DecidableEq, Repr

/-- What `createStripeWebhook` can raise: its own extraction error, or
the re-thrown command failure. -/
inductive WebhookErr where
  | extractFailed
  | execFailed (e : ExecError)
deriving DecidableEq, Repr

/-- `createStripeWebhook` of `setup.ts`, as a function of the
`stripe listen --print-secret` outcome.  The surrounding `catch` only
logs and re-throws, so both the command failure and the missing-token
error propagate to the caller. -/
def createStripeWebhook : ExecOutcome → Except WebhookErr (List Char)
  | .ok stdout _ =>
    match findWhsec stdout with
    | some t => .ok t
    | none => .error .extractFailed
  | .failed e => .error (.execFailed e)

/-- Spec predicate: a `whsec_`-plus-alphanumerics token starts here. -/
def startsWhsecTok (l : List Char) : Bool :=
  match dropLit (chars "whsec_") l with
  | none => false
  | some r => ¬ (r.takeWhile isAlnum).isEmpty

/-- Spec predicate: `tok` is the leftmost, maximal-munch match of
`whsec_[a-zA-Z0-9]+` in `out`. -/
def IsFirstWhsec (out tok : List Char) : Prop :=
  ∃ pre run post,
    out = pre ++ chars "whsec_" ++ run ++ post ∧
    tok = chars "whsec_" ++ run ∧
    run ≠ [] ∧ run.all isAlnum = true ∧
    (post = [] ∨ ∃ d post2, post = d :: post2 ∧ isAlnum d = false) ∧
    ∀ j, j < pre.length → startsWhsecTok (out.drop j) = false

theorem dropLit_some {pat l r : List Char} (h : dropLit pat l = some r) :
    l = pat ++ r := by
  induction pat generalizing l with
  | nil => cases h; rfl
  | cons p ps ih =>
    cases l with
    | nil => cases h
    | cons c cs =>
      unfold dropLit at h
      by_cases hc : c = p
      · rw [if_pos hc] at h
        subst hc
        simpa using ih h
      · rw [if_neg hc] at h
        cases h

theorem head_dropWhile_false {p : Char → Bool} {l rest : List Char} {d : Char}
    (h : l.dropWhile p = d :: rest) : p d = false := by
  induction l with
  | nil => cases h
  | cons c cs ih =>
    unfold List.dropWhile at h
    by_cases hc : p c = true
    · rw [hc] at h
      exact ih (by simpa using h)
    · simp only [Bool.not_eq_true] at hc
      rw [hc] at h
      cases h
      exact hc

theorem whsecFrom_none_iff {l : List Char} :
    whsecFrom l = none ↔ startsWhsecTok l = false := by
  unfold whsecFrom startsWhsecTok
  cases dropLit (chars "whsec_") l with
  | none => simp
  | some r =>
    by_cases he : (r.takeWhile isAlnum).isEmpty
    · simp [he]
    · simp [he]

theorem whsecFrom_some {l tok : List Char} (h : whsecFrom l = some tok) :
    ∃ run post,
      l = chars "whsec_" ++ run ++ post ∧
      tok = chars "whsec_" ++ run ∧
      run ≠ [] ∧ run.all isAlnum = true ∧
      (post = [] ∨ ∃ d post2, post = d :: post2 ∧ isAlnum d = false) := by
  unfold whsecFrom at h
  rcases hd : dropLit (chars "whsec_") l with _ | r <;> rw [hd] at h
  · cases h
  · by_cases he : (r.takeWhile isAlnum).isEmpty
    · exfalso; simp [he] at h
    · simp only [he, Bool.false_eq_true, if_false, Option.some.injEq] at h
      subst h
      refine ⟨r.takeWhile isAlnum, r.dropWhile isAlnum, ?_, rfl, ?_, List.all_takeWhile .., ?_⟩
      · rw [List.append_assoc, List.takeWhile_append_dropWhile]
        exact dropLit_some hd
      · simpa [List.isEmpty_iff] using he
      · rcases hdw : r.dropWhile isAlnum with _ | ⟨d, post2⟩
        · exact Or.inl rfl
        · exact Or.inr ⟨d, post2, rfl, head_dropWhile_false hdw⟩

theorem findWhsec_sound {out tok : List Char} (h : findWhsec out = some tok) :
    IsFirstWhsec out tok := by
  induction out with
  | nil => cases h
  | cons c rest ih =>
    unfold findWhsec at h
    rcases hw : whsecFrom (c :: rest) with _ | t <;> rw [hw] at h
    · rcases ih h with ⟨pre, run, post, hdec, htok, hne, hall, hmax, hleft⟩
      refine ⟨c :: pre, run, post, by rw [hdec]; simp, htok, hne, hall, hmax, ?_⟩
      intro j hj
      cases j with
      | zero =>
        rw [List.drop_zero]
        exact whsecFrom_none_iff.mp hw
      | succ j2 =>
        rw [List.drop_succ_cons]
        exact hleft j2 (by simpa using hj)
    · cases h
      rcases whsecFrom_some hw with ⟨run, post, hdec, htok, hne, hall, hmax⟩
      exact ⟨[], run, post, by simpa using hdec, htok, hne, hall, hmax,
        fun j hj => absurd hj (by simp)⟩

theorem findWhsec_none_iff {out : List Char} :
    findWhsec out = none ↔ ∀ j, startsWhsecTok (out.drop j) = false := by
  induction out with
  | nil =>
    constructor
    · intro _ j
      rw [List.drop_nil]
      rfl
    · intro _
      rfl
  | cons c rest ih =>
    constructor
    · intro h j
      unfold findWhsec at h
      rcases hw : whsecFrom (c :: rest) with _ | t <;> rw [hw] at h
      · cases j with
        | zero =>
          rw [List.drop_zero]
          exact whsecFrom_none_iff.mp hw
        | succ j2 =>
          rw [List.drop_succ_cons]
          exact ih.mp h j2
      · cases h
    · intro hall
      unfold findWhsec
      have h0 : whsecFrom (c :: rest) = none := by
        apply whsecFrom_none_iff.mpr
        simpa using hall 0
      rw [h0]
      exact ih.mpr (fun j => by simpa using hall (j + 1))

/-- **C8**: on command success, `createStripeWebhook` returns a token iff
the output contains one, and the returned token is the leftmost
maximal-munch match of `whsec_[a-zA-Z0-9]+`; it fails with its own
extraction error exactly when no such token appears anywhere in the
output; and a command failure is re-raised to the caller unchanged, never
swallowed. -/
theorem C8_createStripeWebhook_contract :
    (∀ out err tok, createStripeWebhook (.ok out err) = .ok tok → IsFirstWhsec out tok) ∧
    (∀ out err, createStripeWebhook (.ok out err) = .error .extractFailed ↔
      ∀ j, startsWhsecTok (out.drop j) = false) ∧
    (∀ e, createStripeWebhook (.failed e) = .error (.execFailed e)) := by
  refine ⟨?_, ?_, fun e => rfl⟩
  · intro out err tok h
    simp only [createStripeWebhook] at h
    rcases hf : findWhsec out with _ | t <;> rw [hf] at h
    · cases h
    · cases h
      exact findWhsec_sound hf
  · intro out err
    constructor
    · intro h
      simp only [createStripeWebhook] at h
      rcases hf : findWhsec out with _ | t <;> rw [hf] at h
      · exact findWhsec_none_iff.mp hf
      · cases h
    · intro hall
      have hf : findWhsec out = none := findWhsec_none_iff.mpr hall
      simp [createStripeWebhook, hf]

/-- Witness for C8: a concrete output with a token (leftmost/maximal
match returned), a token-free output (extraction failure), and a failed
command (error passed through). -/
theorem C8_createStripeWebhook_contract_witness :
    IsFirstWhsec (chars "x whsec_abc9! tail") (chars "whsec_abc9") ∧
    (∀ j, startsWhsecTok ((chars "no secret here").drop j) = false) ∧
    createStripeWebhook (.failed ⟨chars "out", chars "err"⟩)
      = .error (.execFailed ⟨chars "out", chars "err"⟩) :=
  ⟨C8_createStripeWebhook_contract.1 (chars "x whsec_abc9! tail") []
      (chars "whsec_abc9") (by rfl),
   (C8_createStripeWebhook_contract.2.1 (chars "no secret here") []).mp (by rfl),
   C8_createStripeWebhook_contract.2.2 ⟨chars "out", chars "err"⟩⟩

/-- `MIGRATION_STATEMENTS` of the bootstrap module (8 DDL statements, in
declared order; exported as `BOOTSTRAP_STATEMENTS` for the seed script). -/
def MIGRATION_STATEMENTS : List String :=
  ["CREATE TABLE IF NOT EXISTS users (\n    id INTEGER PRIMARY KEY AUTOINCREMENT NOT NULL,\n    name TEXT(100),\n    email TEXT(255) NOT NULL,\n    password_hash TEXT NOT NULL,\n    role TEXT(20) DEFAULT \x27member\x27 NOT NULL,\n    created_at INTEGER DEFAULT (unixepoch()) NOT NULL,\n    updated_at INTEGER DEFAULT (unixepoch()) NOT NULL,\n    deleted_at INTEGER\n  );",
   "CREATE TABLE IF NOT EXISTS teams (\n    id INTEGER PRIMARY KEY AUTOINCREMENT NOT NULL,\n    name TEXT(100) NOT NULL,\n    created_at INTEGER DEFAULT (unixepoch()) NOT NULL,\n    updated_at INTEGER DEFAULT (unixepoch()) NOT NULL,\n    stripe_customer_id TEXT,\n    stripe_subscription_id TEXT,\n    stripe_product_id TEXT,\n    plan_name TEXT(50),\n    subscription_status TEXT(20)\n  );",
   "CREATE UNIQUE INDEX IF NOT EXISTS teams_stripe_customer_id_unique ON teams (stripe_customer_id);",
   "CREATE UNIQUE INDEX IF NOT EXISTS teams_stripe_subscription_id_unique ON teams (stripe_subscription_id);",
   "CREATE TABLE IF NOT EXISTS team_members (\n    id INTEGER PRIMARY KEY AUTOINCREMENT NOT NULL,\n    user_id INTEGER NOT NULL,\n    team_id INTEGER NOT NULL,\n    role TEXT(50) NOT NULL,\n    joined_at INTEGER DEFAULT (unixepoch()) NOT NULL,\n    FOREIGN KEY (user_id) REFERENCES users(id) ON UPDATE NO ACTION ON DELETE NO ACTION,\n    FOREIGN KEY (team_id) REFERENCES teams(id) ON UPDATE NO ACTION ON DELETE NO ACTION\n  );",
   "CREATE TABLE IF NOT EXISTS invitations (\n    id INTEGER PRIMARY KEY AUTOINCREMENT NOT NULL,\n    team_id INTEGER NOT NULL,\n    email TEXT(255) NOT NULL,\n    role TEXT(50) NOT NULL,\n    invited_by INTEGER NOT NULL,\n    invited_at INTEGER DEFAULT (unixepoch()) NOT NULL,\n    status TEXT(20) DEFAULT \x27pending\x27 NOT NULL,\n    FOREIGN KEY (team_id) REFERENCES teams(id) ON UPDATE NO ACTION ON DELETE NO ACTION,\n    FOREIGN KEY (invited_by) REFERENCES users(id) ON UPDATE NO ACTION ON DELETE NO ACTION\n  );",
   "CREATE TABLE IF NOT EXISTS activity_logs (\n    id INTEGER PRIMARY KEY AUTOINCREMENT NOT NULL,\n    team_id INTEGER NOT NULL,\n    user_id INTEGER,\n    action TEXT NOT NULL,\n    timestamp INTEGER DEFAULT (unixepoch()) NOT NULL,\n    ip_address TEXT(45),\n    FOREIGN KEY (team_id) REFERENCES teams(id) ON UPDATE NO ACTION ON DELETE NO ACTION,\n    FOREIGN KEY (user_id) REFERENCES users(id) ON UPDATE NO ACTION ON DELETE NO ACTION\n  );",
   "CREATE UNIQUE INDEX IF NOT EXISTS users_email_unique ON users (email);"]

structure SeedUser where
  id : Nat
  email : List Char
  passwordHash : List Char
  role : List Char
deriving DecidableEq, Repr

structure SeedTeam where
  id : Nat
  name : List Char
deriving DecidableEq, Repr

structure SeedMember where
  id : Nat
  userId : Nat
  teamId : Nat
  role : List Char
deriving DecidableEq, Repr

structure StripeProduct where
  id : Nat
  name : List Char
  description : List Char
deriving DecidableEq, Repr

structure StripePrice where
  id : Nat
  productId : Nat
  unitAmount : Nat
  currency : List Char
  interval : List Char
  trialPeriodDays : Nat
deriving DecidableEq, Repr

/-- The remote D1 store the seed script talks to, plus the Stripe side
effects, at the granularity the script observes.  Ids model SQLite
AUTOINCREMENT / Stripe-generated ids; `appliedStmts` records the raw
statements sent through the remote `/query` protocol. -/
structure Store where
  users : List SeedUser
  teams : List SeedTeam
  teamMembers : List SeedMember
  products : List StripeProduct
  prices : List StripePrice
  appliedStmts : List String
deriving DecidableEq, Repr

def emptyStore : Store := ⟨[], [], [], [], [], []⟩

/-- `db.select().from(users).where(eq(users.email, email)).limit(1)`. -/
def selectUserByEmail (s : Store) (email : List Char) : Option SeedUser :=
  (s.users.filter (fun u => u.email = email)).head?

/-- `db.select().from(teams).where(eq(teams.name, name)).limit(1)`. -/
def selectTeamByName (s : Store) (name : List Char) : Option SeedTeam :=
  (s.teams.filter (fun t => t.name = name)).head?

/-- Membership lookup by `(teamId, userId)` with `limit(1)`. -/
def selectMembership (s : Store) (teamId userId : Nat) : Option SeedMember :=
  (s.teamMembers.filter (fun m => m.teamId = teamId ∧ m.userId = userId)).head?

/-- `createStripeProducts` of the seed script: two products (`Base`,
`Plus`) with one monthly price each (800 / 1200 cents, 7-day trial) —
unconditionally. -/
def createStripeProducts (s : Store) : Store :=
  let baseId := s.products.length + 1
  let s1 := { s with
    products := s.products ++ [(⟨baseId, chars "Base", chars "Base subscription plan"⟩ : StripeProduct)] }
  let s2 := { s1 with
    prices := s1.prices ++ [(⟨s1.prices.length + 1, baseId, 800, chars "usd", chars "month", 7⟩ : StripePrice)] }
  let plusId := s2.products.length + 1
  let s3 := { s2 with
    products := s2.products ++ [(⟨plusId, chars "Plus", chars "Plus subscription plan"⟩ : StripeProduct)] }
  { s3 with
    prices := s3.prices ++ [(⟨s3.prices.length + 1, plusId, 1200, chars "usd", chars "month", 7⟩ : StripePrice)] }

/-- `seed` of the seed script: apply every bootstrap statement through
the remote protocol, then check-then-insert the default user, team and
membership (re-select failures are the two fatal throws), then create
the billing products with no idempotency guard. -/
def seed (passwordHash : List Char) (s0 : Store) : Except (List Char) Store := do
  let s := { s0 with appliedStmts := s0.appliedStmts ++ MIGRATION_STATEMENTS }
  let email := chars "test@test.com"
  let (s, user) ← (
    match selectUserByEmail s email with
    | some u => Except.ok (s, u)
    | none =>
      let s1 := { s with
        users := s.users ++ [(⟨s.users.length + 1, email, passwordHash, chars "owner"⟩ : SeedUser)] }
      match selectUserByEmail s1 email with
      | some u => Except.ok (s1, u)
      | none => Except.error (chars "Failed to retrieve the seeded user."))
  let teamName := chars "Test Team"
  let (s, team) ← (
    match selectTeamByName s teamName with
    | some t => Except.ok (s, t)
    | none =>
      let s1 := { s with teams := s.teams ++ [(⟨s.teams.length + 1, teamName⟩ : SeedTeam)] }
      match selectTeamByName s1 teamName with
      | some t => Except.ok (s1, t)
      | none => Except.error (chars "Failed to retrieve the seeded team."))
  let s := (
    match selectMembership s team.id user.id with
    | some _ => s
    | none =>
      { s with teamMembers :=
          s.teamMembers ++ [(⟨s.teamMembers.length + 1, user.id, team.id, chars "owner"⟩ : SeedMember)] })
  return createStripeProducts s

/-- **C9**: seeding twice from the empty store inserts exactly one user,
one team and one membership on the first run, zero additional
users/teams/memberships on the second run (check-then-insert is
idempotent), while each run unconditionally adds the two billing
products (`Base`, `Plus`) with one price each — the billing step is not
idempotent. -/
theorem C9_seed_twice_idempotence (ph : List Char) :
    ∃ s1 s2 : Store,
      seed ph emptyStore = .ok s1 ∧ seed ph s1 = .ok s2 ∧
      s1.users.length = 1 ∧ s1.teams.length = 1 ∧ s1.teamMembers.length = 1 ∧
      s1.products.length = 2 ∧ s1.prices.length = 2 ∧
      s2.users = s1.users ∧ s2.teams = s1.teams ∧ s2.teamMembers = s1.teamMembers ∧
      s2.products.length = 4 ∧ s2.prices.length = 4 ∧
      s1.prices.map (fun p => p.productId) = [1, 2] ∧
      s2.prices.map (fun p => p.productId) = [1, 2, 3, 4] ∧
      s1.products.map (fun p => p.name) = [chars "Base", chars "Plus"] ∧
      s2.products.map (fun p => p.name)
        = [chars "Base", chars "Plus", chars "Base", chars "Plus"] := by
  exact ⟨_, _, rfl, rfl, rfl, rfl, rfl, rfl, rfl, rfl, rfl, rfl, rfl, rfl, rfl, rfl, rfl, rfl⟩

def NUM_STATEMENTS : Nat := MIGRATION_STATEMENTS.length

/-- A candidate `db` argument, at the granularity of the duck-typed
check: `typeof candidate === "object" && candidate !== null &&
typeof candidate.prepare === "function"`. -/
inductive D1Candidate where
  | notAnObject
  | nullValue
  | object (prepareIsFunction : Bool)
deriving DecidableEq, Repr

/-- `isD1DatabaseLike` of the bootstrap module. -/
def isD1DatabaseLike : D1Candidate → Bool
  | .object true => true
  | _ => false

/-- What one logical caller of `ensureD1Schema` observes. -/
inductive BootOutcome where
  | success
  | attemptFailed
  | badHandle
deriving DecidableEq, Repr

/-- Events of the cooperative (event-loop) semantics of the bootstrap
module: `call i h` is the synchronous prefix of one `ensureD1Schema(h)`
invocation (capability check, then the atomic check-and-set of
`bootstrapPromise` — no `await` separates them); `tick` is the
settlement of the currently awaited `prepare(statement).run()`. -/
inductive BootEv where
  | call (caller : Nat) (handle : D1Candidate)
  | tick
deriving DecidableEq, Repr

/-- Process state of the bootstrap module.  `flight = some (a, k, ws)`
models a pending `bootstrapPromise` (attempt `a`, statement `k` being
awaited, waiters `ws`); `completed` models a resolved `bootstrapPromise`
(`flight = none ∧ ¬completed` is `bootstrapPromise === null`).
`execLog` records each statement in the order its `prepare(...).run()`
was issued; `results` records settled callers in settlement order. -/
structure BootState where
  flight : Option (Nat × Nat × List Nat)
  completed : Bool
  execLog : List String
  results : List (Nat × BootOutcome)
  nextAttempt : Nat
deriving DecidableEq, Repr

def initBootState : BootState := ⟨none, false, [], [], 0⟩

/-- `fail a k = true` means attempt `a`'s run of statement `k` rejects. -/
def Oracle := Nat → Nat → Bool

/-- One step of the bootstrap semantics, mirroring `ensureD1Schema`:
an invalid handle throws before `bootstrapPromise` is consulted or
touched; a caller joining a resolved promise succeeds immediately; a
caller joining a pending promise waits; the first caller of an idle,
uncompleted state starts a fresh attempt.  A settling run appends its
statement to the log; a rejection clears the memo (`.catch` sets
`bootstrapPromise = null`) and fails every waiter; the last statement
resolves the promise for every waiter. -/
def ensureD1SchemaStep (fail : Oracle) (s : BootState) : BootEv → BootState
  | .call i h =>
    if isD1DatabaseLike h = false then
      { s with results := s.results ++ [(i, .badHandle)] }
    else if s.completed then
      { s with results := s.results ++ [(i, .success)] }
    else
      match s.flight with
      | some (a, k, ws) => { s with flight := some (a, k, ws ++ [i]) }
      | none =>
        { s with flight := some (s.nextAttempt, 0, [i]),
                 nextAttempt := s.nextAttempt + 1 }
  | .tick =>
    match s.flight with
    | none => s
    | some (a, k, ws) =>
      let log2 := s.execLog ++ [MIGRATION_STATEMENTS.getD k ""]
      if fail a k then
        { s with flight := none, execLog := log2,
                 results := s.results ++ ws.map (fun i => (i, BootOutcome.attemptFailed)) }
      else if k + 1 = NUM_STATEMENTS then
        { s with flight := none, completed := true, execLog := log2,
                 results := s.results ++ ws.map (fun i => (i, BootOutcome.success)) }
      else
        { s with flight := some (a, k + 1, ws), execLog := log2 }

/-- Run a trace from a given state. -/
def runBootFrom (fail : Oracle) (s : BootState) (evs : List BootEv) : BootState :=
  evs.foldl (ensureD1SchemaStep fail) s

/-- Run a trace from the initial (fresh-process) state. -/
def runBoot (fail : Oracle) (evs : List BootEv) : BootState :=
  runBootFrom fail initBootState evs

/-- The handle is acceptable to the duck-typed check. -/
def validEv : BootEv → Bool
  | .call _ h => isD1DatabaseLike h
  | .tick => true

def isCallEv : BootEv → Bool
  | .call _ _ => true
  | .tick => false

theorem NUM_pos : 0 < NUM_STATEMENTS := by decide

theorem runBootFrom_append (fail : Oracle) (s : BootState) (e1 e2 : List BootEv) :
    runBootFrom fail s (e1 ++ e2) = runBootFrom fail (runBootFrom fail s e1) e2 :=
  List.foldl_append _ _ _ _

theorem take_succ_getD {l : List String} {k : Nat} (hk : k < l.length) :
    l.take (k + 1) = l.take k ++ [l.getD k ""] := by
  rw [List.take_succ, List.getElem?_eq_getElem hk, List.getD_eq_getElem l "" hk]
  rfl

/-- Ticks are no-ops once no promise is pending. -/
theorem boot_ticks_idle (fail : Oracle) (co : Bool) (L : List String)
    (R : List (Nat × BootOutcome)) (na : Nat) :
    ∀ n, runBootFrom fail ⟨none, co, L, R, na⟩ (List.replicate n .tick)
      = ⟨none, co, L, R, na⟩ := by
  intro n
  induction n with
  | zero => rfl
  | succ m ih =>
    rw [List.replicate_succ]
    exact ih

/-- Advancing `n` settling runs of attempt `a` that neither fail nor
reach the end of the list. -/
theorem boot_ticks_advance (fail : Oracle) (a : Nat) :
    ∀ (n j : Nat) (ws : List Nat) (co : Bool) (L : List String)
      (R : List (Nat × BootOutcome)) (na : Nat),
      (∀ m, m < n → fail a (j + m) = false) →
      j + n < NUM_STATEMENTS →
      runBootFrom fail ⟨some (a, j, ws), co, L, R, na⟩ (List.replicate n .tick)
        = ⟨some (a, j + n, ws), co, L ++ (MIGRATION_STATEMENTS.drop j).take n, R, na⟩ := by
  intro n
  induction n with
  | zero =>
    intro j ws co L R na _ _
    simp [runBootFrom]
  | succ m ih =>
    intro j ws co L R na hnf hlt
    rw [List.replicate_succ]
    have hf0 : fail a j = false := by simpa using hnf 0 (Nat.succ_pos m)
    have hj1 : j + 1 ≠ NUM_STATEMENTS := by omega
    have hstep : runBootFrom fail ⟨some (a, j, ws), co, L, R, na⟩ [BootEv.tick]
        = ⟨some (a, j + 1, ws), co, L ++ [MIGRATION_STATEMENTS.getD j ""], R, na⟩ := by
      simp [runBootFrom, ensureD1SchemaStep, hf0, hj1]
    have hsplit : (BootEv.tick :: List.replicate m BootEv.tick)
        = [BootEv.tick] ++ List.replicate m BootEv.tick := rfl
    rw [hsplit, runBootFrom_append, hstep]
    rw [ih (j + 1) ws co (L ++ [MIGRATION_STATEMENTS.getD j ""]) R na
      (fun m2 hm2 => by
        have he : j + 1 + m2 = j + (m2 + 1) := by omega
        rw [he]
        exact hnf (m2 + 1) (by omega))
      (by omega)]
    have hjlen : j < MIGRATION_STATEMENTS.length := by
      have : NUM_STATEMENTS = MIGRATION_STATEMENTS.length := rfl
      omega
    have hdropj : (MIGRATION_STATEMENTS.drop j).take (m + 1)
        = MIGRATION_STATEMENTS.getD j "" :: (MIGRATION_STATEMENTS.drop (j + 1)).take m := by
      rw [List.drop_eq_getElem_cons hjlen]
      rw [List.getD_eq_getElem _ "" hjlen]
      rfl
    simp [hdropj, Nat.add_assoc, Nat.add_comm 1 m]

/-- A fresh attempt that is forced to fail at statement `k` executes
exactly statements `0..k` and fails every waiter, clearing the memo. -/
theorem boot_run_attempt_fail (fail : Oracle) (a k : Nat) (ws : List Nat) (co : Bool)
    (L : List String) (R : List (Nat × BootOutcome)) (na : Nat)
    (hk : k < NUM_STATEMENTS)
    (hnf : ∀ m, m < k → fail a m = false) (hf : fail a k = true) :
    runBootFrom fail ⟨some (a, 0, ws), co, L, R, na⟩ (List.replicate (k + 1) .tick)
      = ⟨none, co, L ++ MIGRATION_STATEMENTS.take (k + 1),
         R ++ ws.map (fun i => (i, BootOutcome.attemptFailed)), na⟩ := by
  have hsplit : List.replicate (k + 1) BootEv.tick
      = List.replicate k BootEv.tick ++ [BootEv.tick] := by
    rw [← List.replicate_succ']
  rw [hsplit, runBootFrom_append]
  rw [boot_ticks_advance fail a k 0 ws co L R na
    (fun m hm => by simpa using hnf m hm) (by omega)]
  have hklen : k < MIGRATION_STATEMENTS.length := hk
  simp only [Nat.zero_add, List.drop_zero]
  have hstep : runBootFrom fail
      ⟨some (a, k, ws), co, L ++ MIGRATION_STATEMENTS.take k, R, na⟩ [BootEv.tick]
      = ⟨none, co, (L ++ MIGRATION_STATEMENTS.take k) ++ [MIGRATION_STATEMENTS.getD k ""],
         R ++ ws.map (fun i => (i, BootOutcome.attemptFailed)), na⟩ := by
    simp [runBootFrom, ensureD1SchemaStep, hf]
  rw [hstep, take_succ_getD hklen]
  simp

/-- From statement `k` of a pending attempt with no further failures, the
remaining `NUM_STATEMENTS - k` settlements execute statements `k..end`
in order, resolve the promise, and succeed every waiter. -/
theorem boot_finish_from (fail : Oracle) (a k : Nat) (ws : List Nat)
    (L : List String) (R : List (Nat × BootOutcome)) (na : Nat)
    (hk : k < NUM_STATEMENTS)
    (hnf : ∀ m, k ≤ m → m < NUM_STATEMENTS → fail a m = false) :
    runBootFrom fail ⟨some (a, k, ws), false, L, R, na⟩
        (List.replicate (NUM_STATEMENTS - k) .tick)
      = ⟨none, true, L ++ MIGRATION_STATEMENTS.drop k,
         R ++ ws.map (fun i => (i, BootOutcome.success)), na⟩ := by
  have hsplit : List.replicate (NUM_STATEMENTS - k) BootEv.tick
      = List.replicate (NUM_STATEMENTS - 1 - k) BootEv.tick ++ [BootEv.tick] := by
    rw [← List.replicate_succ']
    congr 1
    omega
  rw [hsplit, runBootFrom_append]
  rw [boot_ticks_advance fail a (NUM_STATEMENTS - 1 - k) k ws false L R na
    (fun m hm => hnf (k + m) (by omega) (by omega)) (by omega)]
  have hlast : k + (NUM_STATEMENTS - 1 - k) = NUM_STATEMENTS - 1 := by omega
  rw [hlast]
  have hfin : fail a (NUM_STATEMENTS - 1) = false := by
    exact hnf _ (by omega) (by omega)
  have hone : NUM_STATEMENTS - 1 + 1 = NUM_STATEMENTS := by
    have := NUM_pos
    omega
  have hstep : runBootFrom fail
      ⟨some (a, NUM_STATEMENTS - 1, ws), false,
        L ++ (MIGRATION_STATEMENTS.drop k).take (NUM_STATEMENTS - 1 - k), R, na⟩ [BootEv.tick]
      = ⟨none, true,
         (L ++ (MIGRATION_STATEMENTS.drop k).take (NUM_STATEMENTS - 1 - k))
           ++ [MIGRATION_STATEMENTS.getD (NUM_STATEMENTS - 1) ""],
         R ++ ws.map (fun i => (i, BootOutcome.success)), na⟩ := by
    simp [runBootFrom, ensureD1SchemaStep, hfin, hone]
  rw [hstep]
  have hdk : (MIGRATION_STATEMENTS.drop k).take (NUM_STATEMENTS - 1 - k)
      ++ [MIGRATION_STATEMENTS.getD (NUM_STATEMENTS - 1) ""]
      = MIGRATION_STATEMENTS.drop k := by
    have hlen : (MIGRATION_STATEMENTS.drop k).length = NUM_STATEMENTS - k := by
      simp [NUM_STATEMENTS]
    have hidx : NUM_STATEMENTS - 1 - k < (MIGRATION_STATEMENTS.drop k).length := by omega
    have hidx2 : k + (NUM_STATEMENTS - 1 - k) < MIGRATION_STATEMENTS.length := by
      have : NUM_STATEMENTS = MIGRATION_STATEMENTS.length := rfl
      omega
    have hidx3 : NUM_STATEMENTS - 1 < MIGRATION_STATEMENTS.length := by
      have he : NUM_STATEMENTS = MIGRATION_STATEMENTS.length := rfl
      omega
    have hgd : (MIGRATION_STATEMENTS.drop k).getD (NUM_STATEMENTS - 1 - k) ""
        = MIGRATION_STATEMENTS.getD (NUM_STATEMENTS - 1) "" := by
      rw [List.getD_eq_getElem _ "" hidx, List.getD_eq_getElem _ "" hidx3]
      rw [List.getElem_drop]
      congr 1
    rw [← hgd, ← take_succ_getD hidx]
    have : NUM_STATEMENTS - 1 - k + 1 = (MIGRATION_STATEMENTS.drop k).length := by omega
    rw [this, List.take_length]
  rw [List.append_assoc, hdk]

/-- Waiters joining a pending attempt. -/
theorem boot_calls_join (fail : Oracle) :
    ∀ (cs ws : List Nat) (a k : Nat) (L : List String)
      (R : List (Nat × BootOutcome)) (na : Nat),
      runBootFrom fail ⟨some (a, k, ws), false, L, R, na⟩
          (cs.map (fun i => BootEv.call i (D1Candidate.object true)))
        = ⟨some (a, k, ws ++ cs), false, L, R, na⟩ := by
  intro cs
  induction cs with
  | nil =>
    intro ws a k L R na
    simp [runBootFrom]
  | cons c cs ih =>
    intro ws a k L R na
    rw [List.map_cons]
    have hstep : ensureD1SchemaStep fail ⟨some (a, k, ws), false, L, R, na⟩
        (BootEv.call c (D1Candidate.object true))
        = ⟨some (a, k, ws ++ [c]), false, L, R, na⟩ := by
      simp [ensureD1SchemaStep, isD1DatabaseLike]
    unfold runBootFrom
    rw [List.foldl_cons]
    rw [show ensureD1SchemaStep fail ⟨some (a, k, ws), false, L, R, na⟩
        (BootEv.call c (D1Candidate.object true))
        = ⟨some (a, k, ws ++ [c]), false, L, R, na⟩ from hstep]
    have := ih (ws ++ [c]) a k L R na
    unfold runBootFrom at this
    rw [this]
    simp

/-- Reachable-state invariant of the no-failure bootstrap semantics:
every settled caller saw success, and the process is in exactly one of
three shapes — untouched, attempt 0 pending at statement `k` with the
first `k` statements logged, or attempt 0 completed with the whole list
logged once. -/
def BootInv (s : BootState) : Prop :=
  (∀ p ∈ s.results, p.2 = BootOutcome.success) ∧
  ((s.flight = none ∧ s.completed = false ∧ s.execLog = [] ∧ s.nextAttempt = 0) ∨
   (∃ k ws, k < NUM_STATEMENTS ∧ s.flight = some (0, k, ws) ∧ s.completed = false ∧
     s.execLog = MIGRATION_STATEMENTS.take k ∧ s.nextAttempt = 1) ∨
   (s.flight = none ∧ s.completed = true ∧ s.execLog = MIGRATION_STATEMENTS ∧
     s.nextAttempt = 1))

theorem bootInv_step {fail : Oracle} (hnf : ∀ a m, fail a m = false)
    {s : BootState} {e : BootEv} (hs : BootInv s) (he : validEv e = true) :
    BootInv (ensureD1SchemaStep fail s e) ∧
    ((isCallEv e = true ∨ s.nextAttempt ≠ 0) →
      (ensureD1SchemaStep fail s e).nextAttempt ≠ 0) := by
  obtain ⟨fl, co, L, R, na⟩ := s
  obtain ⟨hres, hcase⟩ := hs
  simp only at hres
  cases e with
  | call i h =>
    have hvalid : isD1DatabaseLike h = true := he
    rcases hcase with ⟨hf, hc, hl, hn⟩ | ⟨k, ws, hk, hf, hc, hl, hn⟩ | ⟨hf, hc, hl, hn⟩ <;>
      simp only at hf hc hl hn <;> subst hf <;> subst hc <;> subst hl <;> subst hn
    · have hstep : ensureD1SchemaStep fail ⟨none, false, [], R, 0⟩ (BootEv.call i h)
          = ⟨some (0, 0, [i]), false, [], R, 1⟩ := by
        simp [ensureD1SchemaStep, hvalid]
      rw [hstep]
      exact ⟨⟨hres, Or.inr (Or.inl ⟨0, [i], NUM_pos, rfl, rfl, rfl, rfl⟩)⟩,
        fun _ => by simp⟩
    · have hstep : ensureD1SchemaStep fail
          ⟨some (0, k, ws), false, MIGRATION_STATEMENTS.take k, R, 1⟩ (BootEv.call i h)
          = ⟨some (0, k, ws ++ [i]), false, MIGRATION_STATEMENTS.take k, R, 1⟩ := by
        simp [ensureD1SchemaStep, hvalid]
      rw [hstep]
      exact ⟨⟨hres, Or.inr (Or.inl ⟨k, ws ++ [i], hk, rfl, rfl, rfl, rfl⟩)⟩,
        fun _ => by simp⟩
    · have hstep : ensureD1SchemaStep fail
          ⟨none, true, MIGRATION_STATEMENTS, R, 1⟩ (BootEv.call i h)
          = ⟨none, true, MIGRATION_STATEMENTS, R ++ [(i, BootOutcome.success)], 1⟩ := by
        simp [ensureD1SchemaStep, hvalid]
      rw [hstep]
      refine ⟨⟨?_, Or.inr (Or.inr ⟨rfl, rfl, rfl, rfl⟩)⟩, fun _ => by simp⟩
      intro p hp
      rcases List.mem_append.mp hp with h1 | h2
      · exact hres p h1
      · simp at h2
        rw [h2]
  | tick =>
    rcases hcase with ⟨hf, hc, hl, hn⟩ | ⟨k, ws, hk, hf, hc, hl, hn⟩ | ⟨hf, hc, hl, hn⟩ <;>
      simp only at hf hc hl hn <;> subst hf <;> subst hc <;> subst hl <;> subst hn
    · have hstep : ensureD1SchemaStep fail ⟨none, false, [], R, 0⟩ BootEv.tick
          = ⟨none, false, [], R, 0⟩ := by
        simp [ensureD1SchemaStep]
      rw [hstep]
      exact ⟨⟨hres, Or.inl ⟨rfl, rfl, rfl, rfl⟩⟩, fun hd => by
        rcases hd with hd | hd
        · cases hd
        · exact absurd rfl hd⟩
    · have hklen : k < MIGRATION_STATEMENTS.length := hk
      by_cases hk1 : k + 1 = NUM_STATEMENTS
      · have hstep : ensureD1SchemaStep fail
            ⟨some (0, k, ws), false, MIGRATION_STATEMENTS.take k, R, 1⟩ BootEv.tick
            = ⟨none, true, MIGRATION_STATEMENTS.take k ++ [MIGRATION_STATEMENTS.getD k ""],
               R ++ ws.map (fun i => (i, BootOutcome.success)), 1⟩ := by
          simp [ensureD1SchemaStep, hnf, hk1]
        rw [hstep]
        refine ⟨⟨?_, Or.inr (Or.inr ⟨rfl, rfl, ?_, rfl⟩)⟩, fun _ => by simp⟩
        · intro p hp
          rcases List.mem_append.mp hp with h1 | h2
          · exact hres p h1
          · rcases List.mem_map.mp h2 with ⟨q, _, hq⟩
            rw [← hq]
        · show MIGRATION_STATEMENTS.take k ++ [MIGRATION_STATEMENTS.getD k ""]
            = MIGRATION_STATEMENTS
          rw [← take_succ_getD hklen, hk1]
          exact List.take_length MIGRATION_STATEMENTS
      · have hstep : ensureD1SchemaStep fail
            ⟨some (0, k, ws), false, MIGRATION_STATEMENTS.take k, R, 1⟩ BootEv.tick
            = ⟨some (0, k + 1, ws),
               false, MIGRATION_STATEMENTS.take k ++ [MIGRATION_STATEMENTS.getD k ""], R, 1⟩ := by
          simp [ensureD1SchemaStep, hnf, hk1]
        rw [hstep]
        refine ⟨⟨hres, Or.inr (Or.inl ⟨k + 1, ws, by omega, rfl, rfl, ?_, rfl⟩)⟩,
          fun _ => by simp⟩
        rw [← take_succ_getD hklen]
    · have hstep : ensureD1SchemaStep fail
          ⟨none, true, MIGRATION_STATEMENTS, R, 1⟩ BootEv.tick
          = ⟨none, true, MIGRATION_STATEMENTS, R, 1⟩ := by
        simp [ensureD1SchemaStep]
      rw [hstep]
      exact ⟨⟨hres, Or.inr (Or.inr ⟨rfl, rfl, rfl, rfl⟩)⟩, fun _ => by simp⟩

theorem bootInv_run {fail : Oracle} (hnf : ∀ a m, fail a m = false) :
    ∀ (evs : List BootEv) (s : BootState), BootInv s → evs.all validEv = true →
      BootInv (runBootFrom fail s evs) ∧
      ((s.nextAttempt ≠ 0 ∨ evs.any isCallEv = true) →
        (runBootFrom fail s evs).nextAttempt ≠ 0) := by
  intro evs
  induction evs with
  | nil =>
    intro s hs _
    refine ⟨hs, fun hd => ?_⟩
    rcases hd with hd | hd
    · exact hd
    · simp at hd
  | cons e es ih =>
    intro s hs hv
    rw [List.all_cons, Bool.and_eq_true] at hv
    obtain ⟨hinv1, hna1⟩ := bootInv_step hnf hs hv.1
    have hfold : runBootFrom fail s (e :: es)
        = runBootFrom fail (ensureD1SchemaStep fail s e) es := rfl
    rw [hfold]
    obtain ⟨hinvF, hnaF⟩ := ih (ensureD1SchemaStep fail s e) hinv1 hv.2
    refine ⟨hinvF, fun hd => ?_⟩
    rcases hd with hd | hd
    · exact hnaF (Or.inl (hna1 (Or.inr hd)))
    · rw [List.any_cons, Bool.or_eq_true] at hd
      rcases hd with hd | hd
      · exact hnaF (Or.inl (hna1 (Or.inl hd)))
      · exact hnaF (Or.inr hd)

/-- After any valid trace with at least one call, followed by enough
settlements to drain the pending attempt, the no-failure semantics has
executed the statement list exactly once, resolved the memoized promise,
and delivered success to every settled caller. -/
theorem boot_drained (fail : Oracle) (evs : List BootEv)
    (hnf : ∀ a m, fail a m = false)
    (hvalid : evs.all validEv = true) (hcall : evs.any isCallEv = true) :
    ∃ R, runBoot fail (evs ++ List.replicate NUM_STATEMENTS .tick)
        = ⟨none, true, MIGRATION_STATEMENTS, R, 1⟩ ∧
      ∀ p ∈ R, p.2 = BootOutcome.success := by
  have hinit : BootInv initBootState := ⟨by simp [initBootState], Or.inl ⟨rfl, rfl, rfl, rfl⟩⟩
  obtain ⟨hinv, hna⟩ := bootInv_run hnf evs initBootState hinit hvalid
  have hna2 : (runBootFrom fail initBootState evs).nextAttempt ≠ 0 := hna (Or.inr hcall)
  unfold runBoot
  rw [runBootFrom_append]
  obtain ⟨hres, hcase⟩ := hinv
  rcases hcase with ⟨_, _, _, hn⟩ | ⟨k, ws, hk, hf, hc, hl, hn⟩ | ⟨hf, hc, hl, hn⟩
  · exact absurd hn hna2
  · rcases hs1 : runBootFrom fail initBootState evs with ⟨fl, co, L, R, na⟩
    rw [hs1] at hres hf hc hl hn
    simp only at hres hf hc hl hn
    subst hf
    subst hc
    subst hl
    subst hn
    have hsplit : List.replicate NUM_STATEMENTS BootEv.tick
        = List.replicate (NUM_STATEMENTS - k) BootEv.tick
          ++ List.replicate k BootEv.tick := by
      rw [← List.replicate_add]
      congr 1
      omega
    rw [hsplit, runBootFrom_append]
    rw [boot_finish_from fail 0 k ws (MIGRATION_STATEMENTS.take k) R 1 hk
      (fun m _ _ => hnf 0 m)]
    rw [List.take_append_drop]
    rw [boot_ticks_idle]
    refine ⟨R ++ ws.map (fun i => (i, BootOutcome.success)), rfl, ?_⟩
    intro p hp
    rcases List.mem_append.mp hp with h1 | h2
    · exact hres p h1
    · rcases List.mem_map.mp h2 with ⟨q, _, hq⟩
      rw [← hq]
  · rcases hs1 : runBootFrom fail initBootState evs with ⟨fl, co, L, R, na⟩
    rw [hs1] at hres hf hc hl hn
    simp only at hres hf hc hl hn
    subst hf
    subst hc
    subst hl
    subst hn
    rw [boot_ticks_idle]
    exact ⟨R, rfl, hres⟩

/-- **C1**: under the cooperative semantics of `ensureD1Schema`, (1) any
trace of concurrent/repeated calls through capability-passing handles,
drained of pending settlements, executes the fixed statement list exactly
once, in declared order, each statement awaited before the next, with
every caller observing success; and (2) when attempt 0 is forced to fail
at statement `k`, the failure clears the memo and propagates to every
caller awaiting that attempt, and a later call starts a fresh, clean
attempt — exactly two attempts run (`nextAttempt = 2`), the first logging
statements `0..k`, the second the full list. -/
theorem C1_ensureD1Schema_single_flight :
    (∀ (fail : Oracle) (evs : List BootEv),
      (∀ a m, fail a m = false) →
      evs.all validEv = true → evs.any isCallEv = true →
      (runBoot fail (evs ++ List.replicate NUM_STATEMENTS .tick)).execLog
          = MIGRATION_STATEMENTS ∧
      (runBoot fail (evs ++ List.replicate NUM_STATEMENTS .tick)).completed = true ∧
      ∀ p ∈ (runBoot fail (evs ++ List.replicate NUM_STATEMENTS .tick)).results,
        p.2 = BootOutcome.success) ∧
    (∀ (k c j : Nat) (cs : List Nat),
      k < NUM_STATEMENTS →
      runBoot (fun a m => a == 0 && m == k)
          ((c :: cs).map (fun i => BootEv.call i (D1Candidate.object true))
            ++ List.replicate (k + 1) .tick
            ++ [BootEv.call j (D1Candidate.object true)]
            ++ List.replicate NUM_STATEMENTS .tick)
        = ⟨none, true, MIGRATION_STATEMENTS.take (k + 1) ++ MIGRATION_STATEMENTS,
           (c :: cs).map (fun i => (i, BootOutcome.attemptFailed))
             ++ [(j, BootOutcome.success)], 2⟩) := by
  constructor
  · intro fail evs hnf hvalid hcall
    obtain ⟨R, hfin, hsucc⟩ := boot_drained fail evs hnf hvalid hcall
    rw [hfin]
    exact ⟨rfl, rfl, hsucc⟩
  · intro k c j cs hk
    unfold runBoot
    rw [runBootFrom_append, runBootFrom_append, runBootFrom_append]
    have hseg1 : runBootFrom (fun a m => a == 0 && m == k) initBootState
        ((c :: cs).map (fun i => BootEv.call i (D1Candidate.object true)))
        = ⟨some (0, 0, [c] ++ cs), false, [], [], 1⟩ := by
      rw [List.map_cons]
      have hstep : ensureD1SchemaStep (fun a m => a == 0 && m == k) initBootState
          (BootEv.call c (D1Candidate.object true))
          = ⟨some (0, 0, [c]), false, [], [], 1⟩ := by
        simp [ensureD1SchemaStep, initBootState, isD1DatabaseLike]
      unfold runBootFrom
      rw [List.foldl_cons, hstep]
      exact boot_calls_join _ cs [c] 0 0 [] [] 1
    rw [hseg1]
    have hnf2 : ∀ m, m < k → (fun (a m2 : Nat) => a == 0 && m2 == k) 0 m = false := by
      intro m hm
      have : m ≠ k := Nat.ne_of_lt hm
      simp [this]
    have hfail : (fun (a m2 : Nat) => a == 0 && m2 == k) 0 k = true := by simp
    rw [boot_run_attempt_fail _ 0 k ([c] ++ cs) false [] [] 1 hk hnf2 hfail]
    have hstep3 : runBootFrom (fun a m => a == 0 && m == k)
        ⟨none, false, [] ++ MIGRATION_STATEMENTS.take (k + 1),
         [] ++ ([c] ++ cs).map (fun i => (i, BootOutcome.attemptFailed)), 1⟩
        [BootEv.call j (D1Candidate.object true)]
        = ⟨some (1, 0, [j]), false, MIGRATION_STATEMENTS.take (k + 1),
           ([c] ++ cs).map (fun i => (i, BootOutcome.attemptFailed)), 2⟩ := by
      simp [runBootFrom, ensureD1SchemaStep, isD1DatabaseLike]
    rw [hstep3]
    have hfin := boot_finish_from (fun a m => a == 0 && m == k) 1 0 [j]
      (MIGRATION_STATEMENTS.take (k + 1))
      (([c] ++ cs).map (fun i => (i, BootOutcome.attemptFailed))) 2 NUM_pos
      (fun m _ _ => by simp)
    rw [Nat.sub_zero] at hfin
    rw [hfin]
    simp

/-- Witness for C1: three interleaved valid calls drain to a single full
execution with all-success results, and a forced failure at statement 0
with two waiting callers, followed by a clean retry by caller 7, yields
exactly two attempts with the statement list re-run once. -/
theorem C1_ensureD1Schema_single_flight_witness :
    ((runBoot (fun _ _ => false)
        ([BootEv.call 0 (D1Candidate.object true), BootEv.tick,
          BootEv.call 1 (D1Candidate.object true)]
          ++ List.replicate NUM_STATEMENTS .tick)).execLog = MIGRATION_STATEMENTS ∧
      (runBoot (fun _ _ => false)
        ([BootEv.call 0 (D1Candidate.object true), BootEv.tick,
          BootEv.call 1 (D1Candidate.object true)]
          ++ List.replicate NUM_STATEMENTS .tick)).completed = true ∧
      ∀ p ∈ (runBoot (fun _ _ => false)
        ([BootEv.call 0 (D1Candidate.object true), BootEv.tick,
          BootEv.call 1 (D1Candidate.object true)]
          ++ List.replicate NUM_STATEMENTS .tick)).results,
        p.2 = BootOutcome.success) ∧
    runBoot (fun a m => a == 0 && m == 0)
        ([5, 6].map (fun i => BootEv.call i (D1Candidate.object true))
          ++ List.replicate 1 .tick
          ++ [BootEv.call 7 (D1Candidate.object true)]
          ++ List.replicate NUM_STATEMENTS .tick)
      = ⟨none, true, MIGRATION_STATEMENTS.take 1 ++ MIGRATION_STATEMENTS,
         [(5, BootOutcome.attemptFailed), (6, BootOutcome.attemptFailed),
          (7, BootOutcome.success)], 2⟩ :=
  ⟨C1_ensureD1Schema_single_flight.1 (fun _ _ => false)
      [BootEv.call 0 (D1Candidate.object true), BootEv.tick,
        BootEv.call 1 (D1Candidate.object true)]
      (fun _ _ => rfl) (by rfl) (by rfl),
   C1_ensureD1Schema_single_flight.2 0 5 7 [6] (by decide)⟩

/-- **C10**: the duck-typed capability check runs on every invocation,
before the memoized state is consulted: a call with an invalid handle
throws from any state while leaving everything but the settled-results
log unchanged; in particular, after a drained successful bootstrap, an
invalid-handle call still throws, the memoized success is untouched, and
a subsequent valid call succeeds without re-running any statement. -/
theorem C10_capability_check_every_call :
    (∀ (fail : Oracle) (s : BootState) (i : Nat) (h : D1Candidate),
      isD1DatabaseLike h = false →
      ensureD1SchemaStep fail s (.call i h)
        = { s with results := s.results ++ [(i, BootOutcome.badHandle)] }) ∧
    (∀ (fail : Oracle) (evs : List BootEv) (i j : Nat) (h : D1Candidate),
      (∀ a m, fail a m = false) →
      evs.all validEv = true → evs.any isCallEv = true →
      isD1DatabaseLike h = false →
      runBoot fail (evs ++ List.replicate NUM_STATEMENTS .tick
          ++ [BootEv.call i h, BootEv.call j (D1Candidate.object true)])
        = { runBoot fail (evs ++ List.replicate NUM_STATEMENTS .tick) with
            results := (runBoot fail (evs ++ List.replicate NUM_STATEMENTS .tick)).results
              ++ [(i, BootOutcome.badHandle), (j, BootOutcome.success)] }) := by
  constructor
  · intro fail s i h hbad
    simp [ensureD1SchemaStep, hbad]
  · intro fail evs i j h hnf hvalid hcall hbad
    obtain ⟨R, hfin, _⟩ := boot_drained fail evs hnf hvalid hcall
    have hsplit : evs ++ List.replicate NUM_STATEMENTS BootEv.tick
          ++ [BootEv.call i h, BootEv.call j (D1Candidate.object true)]
        = (evs ++ List.replicate NUM_STATEMENTS BootEv.tick)
          ++ [BootEv.call i h, BootEv.call j (D1Candidate.object true)] := rfl
    rw [hsplit]
    unfold runBoot
    rw [runBootFrom_append]
    unfold runBoot at hfin
    rw [hfin]
    have hstep1 : ensureD1SchemaStep fail ⟨none, true, MIGRATION_STATEMENTS, R, 1⟩
        (BootEv.call i h)
        = ⟨none, true, MIGRATION_STATEMENTS, R ++ [(i, BootOutcome.badHandle)], 1⟩ := by
      simp [ensureD1SchemaStep, hbad]
    have hstep2 : ensureD1SchemaStep fail
        ⟨none, true, MIGRATION_STATEMENTS, R ++ [(i, BootOutcome.badHandle)], 1⟩
        (BootEv.call j (D1Candidate.object true))
        = ⟨none, true, MIGRATION_STATEMENTS,
           (R ++ [(i, BootOutcome.badHandle)]) ++ [(j, BootOutcome.success)], 1⟩ := by
      simp [ensureD1SchemaStep, isD1DatabaseLike]
    unfold runBootFrom
    rw [List.foldl_cons, hstep1, List.foldl_cons, hstep2, List.foldl_nil]
    simp

/-- Witness for C10: from a concrete mid-flight state an invalid handle
only records the thrown error; and after a drained successful run an
invalid call throws while a valid call still succeeds without re-running
statements. -/
theorem C10_capability_check_every_call_witness :
    ensureD1SchemaStep (fun _ _ => false)
        ⟨some (0, 3, [0]), false, MIGRATION_STATEMENTS.take 3, [], 1⟩
        (.call 9 (D1Candidate.object false))
      = ⟨some (0, 3, [0]), false, MIGRATION_STATEMENTS.take 3,
         [(9, BootOutcome.badHandle)], 1⟩ ∧
    runBoot (fun _ _ => false)
        ([BootEv.call 0 (D1Candidate.object true)]
          ++ List.replicate NUM_STATEMENTS .tick
          ++ [BootEv.call 9 D1Candidate.nullValue,
              BootEv.call 2 (D1Candidate.object true)])
      = { runBoot (fun _ _ => false)
            ([BootEv.call 0 (D1Candidate.object true)]
              ++ List.replicate NUM_STATEMENTS .tick) with
          results := (runBoot (fun _ _ => false)
            ([BootEv.call 0 (D1Candidate.object true)]
              ++ List.replicate NUM_STATEMENTS .tick)).results
            ++ [(9, BootOutcome.badHandle), (2, BootOutcome.success)] } :=
  ⟨C10_capability_check_every_call.1 (fun _ _ => false)
      ⟨some (0, 3, [0]), false, MIGRATION_STATEMENTS.take 3, [], 1⟩ 9
      (D1Candidate.object false) (by rfl),
   C10_capability_check_every_call.2 (fun _ _ => false)
      [BootEv.call 0 (D1Candidate.object true)] 9 2 D1Candidate.nullValue
      (fun _ _ => rfl) (by rfl) (by rfl) (by rfl)⟩
